import Mathlib

/-!
Verification development for the CourtApp evidence-documentation core.

The TypeScript sources are embedded shallowly:

* JavaScript strings are modelled as `JStr := List Nat`, a sequence of
  Unicode scalar values (the application never manufactures lone
  surrogates, and `TextEncoder` would replace them anyway).
* Byte buffers (`Uint8Array` / `ArrayBuffer`) are `List Nat` with every
  element below 256.
* The Web Crypto AEAD cipher and password KDF are external collaborator
  primitives (spec section 6); they enter the embedding as explicit
  structures whose cryptographic behaviour is hypothesised where a claim
  needs it, with a concrete model instance discharging those hypotheses.
* `btoa` / `atob`, UTF-8 coding, SHA-256 and `JSON.stringify` /
  `JSON.parse` are implemented for real, and their round-trip facts are
  proved rather than assumed.
-/

namespace CourtApp

/-- JavaScript string: a list of Unicode scalar values. -/
abbrev JStr := List Nat

/-- Scalar-value well-formedness for one code point. -/
def ScalarCode (c : Nat) : Prop :=
  c < 0xD800 ∨ (0xE000 ≤ c ∧ c < 0x110000)

instance (c : Nat) : Decidable (ScalarCode c) := by
  unfold ScalarCode; infer_instance

/-- Scalar-value well-formedness for a whole string. -/
def ScalarStr (s : JStr) : Prop := ∀ c ∈ s, ScalarCode c

instance (s : JStr) : Decidable (ScalarStr s) := by
  unfold ScalarStr; infer_instance

/-- All elements are bytes. -/
def IsBytes (l : List Nat) : Prop := ∀ b ∈ l, b < 256

instance (l : List Nat) : Decidable (IsBytes l) := by
  unfold IsBytes; infer_instance

/-- Code points of a Lean string literal, for writing concrete inputs. -/
def strCodes (s : String) : JStr := s.data.map Char.toNat

/-! ## UTF-8 (TextEncoder / TextDecoder) -/

/-- UTF-8 encoding of a single code point (the `TextEncoder` byte layout). -/
def utf8EncodeChar (c : Nat) : List Nat :=
  if c < 0x80 then [c]
  else if c < 0x800 then [0xC0 + c / 64, 0x80 + c % 64]
  else if c < 0x10000 then
    [0xE0 + c / 4096, 0x80 + (c / 64) % 64, 0x80 + c % 64]
  else
    [0xF0 + c / 262144, 0x80 + (c / 4096) % 64, 0x80 + (c / 64) % 64, 0x80 + c % 64]

/-- UTF-8 encoding of a string, as `TextEncoder.encode` produces it. -/
def utf8Encode (s : JStr) : List Nat := s.flatMap utf8EncodeChar

/-- Continuation-byte test used by the decoder. -/
def isCont (b : Nat) : Bool := 0x80 ≤ b && b < 0xC0

/-- One UTF-8 decoding step on a lead byte and the remaining stream: the
decoded code point (U+FFFD on a malformed sequence, with the overlong /
surrogate / range checks of `TextDecoder`) and the number of continuation
bytes consumed. -/
def utf8Split (b : Nat) (rest : List Nat) : Nat × Nat :=
  if b < 0x80 then (b, 0)
  else if 0xC2 ≤ b && b < 0xE0 then
    match rest with
    | b2 :: _ =>
      if isCont b2 then ((b - 0xC0) * 64 + (b2 - 0x80), 1) else (0xFFFD, 0)
    | [] => (0xFFFD, 0)
  else if 0xE0 ≤ b && b < 0xF0 then
    match rest with
    | b2 :: b3 :: _ =>
      if isCont b2 && isCont b3 &&
          (b != 0xE0 || 0xA0 ≤ b2) && (b != 0xED || b2 < 0xA0) then
        ((b - 0xE0) * 4096 + (b2 - 0x80) * 64 + (b3 - 0x80), 2)
      else (0xFFFD, 0)
    | _ => (0xFFFD, 0)
  else if 0xF0 ≤ b && b < 0xF5 then
    match rest with
    | b2 :: b3 :: b4 :: _ =>
      if isCont b2 && isCont b3 && isCont b4 &&
          (b != 0xF0 || 0x90 ≤ b2) && (b != 0xF4 || b2 < 0x90) then
        ((b - 0xF0) * 262144 + (b2 - 0x80) * 4096 + (b3 - 0x80) * 64 + (b4 - 0x80), 3)
      else (0xFFFD, 0)
    | _ => (0xFFFD, 0)
  else (0xFFFD, 0)

/-- Fuel-driven decoding loop; the fuel only bounds the number of decoded
characters, so any fuel at least the byte count is enough. -/
def utf8DecodeAux : Nat → List Nat → JStr
  | 0, _ => []
  | _ + 1, [] => []
  | fuel + 1, b :: rest =>
    (utf8Split b rest).1 :: utf8DecodeAux fuel (rest.drop (utf8Split b rest).2)

/-- UTF-8 decoding, as `TextDecoder.decode` (non-fatal mode): malformed
input never throws, it yields U+FFFD replacement characters; well-formed
sequences decode exactly. -/
def utf8Decode (l : List Nat) : JStr := utf8DecodeAux l.length l

/-! ## Base64 (btoa / atob)

The repository encodes binary fields with `arrayBufferToBase64`
(`String.fromCharCode` over the bytes, then `btoa`) and decodes with
`base64ToArrayBuffer` (`atob`, then `charCodeAt`).  `btoaBytes` and
`atobBytes` model those two compositions directly on byte lists; `atob`
follows the WHATWG forgiving-base64 algorithm (strip ASCII whitespace,
strip permissible padding, reject bad lengths and characters, and discard
excess bits of the final group). -/

/-- Character code of one base64 alphabet entry. -/
def b64Char (v : Nat) : Nat :=
  if v < 26 then 65 + v
  else if v < 52 then 97 + (v - 26)
  else if v < 62 then 48 + (v - 52)
  else if v = 62 then 43
  else 47

/-- Alphabet lookup used by `atob`; `none` for characters outside it. -/
def b64Index (c : Nat) : Option Nat :=
  if 65 ≤ c ∧ c ≤ 90 then some (c - 65)
  else if 97 ≤ c ∧ c ≤ 122 then some (c - 97 + 26)
  else if 48 ≤ c ∧ c ≤ 57 then some (c - 48 + 52)
  else if c = 43 then some 62
  else if c = 47 then some 63
  else none

/-- The base64 rendering of a byte list, as `btoa` produces it on a binary
string (including `=` padding). -/
def btoaBytes : List Nat → JStr
  | [] => []
  | [b1] => [b64Char (b1 / 4), b64Char (b1 % 4 * 16), 61, 61]
  | [b1, b2] =>
    [b64Char (b1 / 4), b64Char (b1 % 4 * 16 + b2 / 16), b64Char (b2 % 16 * 4), 61]
  | b1 :: b2 :: b3 :: rest =>
    b64Char (b1 / 4) :: b64Char (b1 % 4 * 16 + b2 / 16) ::
      b64Char (b2 % 16 * 4 + b3 / 64) :: b64Char (b3 % 64) :: btoaBytes rest

/-- The 6-bit value stream behind `btoaBytes`, without the padding. -/
def b64ValsOf : List Nat → List Nat
  | [] => []
  | [b1] => [b1 / 4, b1 % 4 * 16]
  | [b1, b2] => [b1 / 4, b1 % 4 * 16 + b2 / 16, b2 % 16 * 4]
  | b1 :: b2 :: b3 :: rest =>
    b1 / 4 :: (b1 % 4 * 16 + b2 / 16) :: (b2 % 16 * 4 + b3 / 64) :: b3 % 64 :: b64ValsOf rest

/-- ASCII whitespace removed by forgiving-base64. -/
def isB64Ws (c : Nat) : Bool :=
  c == 9 || c == 10 || c == 12 || c == 13 || c == 32

/-- Removal of permissible `=` padding (only when the length is a multiple
of four, only one or two trailing `=`). -/
def stripPad (s : JStr) : JStr :=
  if s.length % 4 = 0 then
    match s.getLast? with
    | some 61 =>
      match s.dropLast.getLast? with
      | some 61 => s.dropLast.dropLast
      | _ => s.dropLast
    | _ => s
  else s

/-- Reassemble bytes out of the 6-bit value stream, discarding the excess
bits of a trailing group of two or three values. -/
def bitsToBytes : List Nat → List Nat
  | [] => []
  | [_] => []
  | [v1, v2] => [v1 * 4 + v2 / 16]
  | [v1, v2, v3] => [v1 * 4 + v2 / 16, v2 % 16 * 16 + v3 / 4]
  | v1 :: v2 :: v3 :: v4 :: rest =>
    (v1 * 4 + v2 / 16) :: (v2 % 16 * 16 + v3 / 4) :: (v3 % 4 * 64 + v4) :: bitsToBytes rest

/-- The forgiving-base64 decode behind `atob`, composed with `charCodeAt`
extraction: `none` models the `InvalidCharacterError` throw. -/
def atobBytes (input : JStr) : Option (List Nat) :=
  let s := stripPad (input.filter (fun c => !isB64Ws c))
  if s.length % 4 = 1 then none
  else (s.mapM b64Index).map bitsToBytes

/-! ## SHA-256 (`crypto.subtle.digest`)

A direct FIPS 180-4 implementation on byte lists, with 32-bit words as
naturals reduced modulo `2 ^ 32`.  `generateHash` in
`src/lib/security/privacyScreen.ts` hex-encodes this digest. -/

/-- Reduction to a 32-bit word. -/
def w32 (n : Nat) : Nat := n % 4294967296

/-- Right rotation of a 32-bit word. -/
def rotr32 (n x : Nat) : Nat := x / 2 ^ n + x % 2 ^ n * 2 ^ (32 - n)

/-- Logical right shift of a 32-bit word. -/
def shr32 (n x : Nat) : Nat := x / 2 ^ n

/-- Bitwise complement of a 32-bit word. -/
def not32 (x : Nat) : Nat := 4294967295 - x

/-- The SHA-256 choice function. -/
def shaCh (x y z : Nat) : Nat := (x &&& y) ^^^ (not32 x &&& z)

/-- The SHA-256 majority function. -/
def shaMaj (x y z : Nat) : Nat := (x &&& y) ^^^ (x &&& z) ^^^ (y &&& z)

/-- Upper-case sigma-0. -/
def bigSigma0 (x : Nat) : Nat := rotr32 2 x ^^^ rotr32 13 x ^^^ rotr32 22 x

/-- Upper-case sigma-1. -/
def bigSigma1 (x : Nat) : Nat := rotr32 6 x ^^^ rotr32 11 x ^^^ rotr32 25 x

/-- Lower-case sigma-0. -/
def smallSigma0 (x : Nat) : Nat := rotr32 7 x ^^^ rotr32 18 x ^^^ shr32 3 x

/-- Lower-case sigma-1. -/
def smallSigma1 (x : Nat) : Nat := rotr32 17 x ^^^ rotr32 19 x ^^^ shr32 10 x

/-- The 64 SHA-256 round constants. -/
def sha256K : List Nat :=
  [1116352408, 1899447441, 3049323471, 3921009573, 961987163, 1508970993,
   2453635748, 2870763221, 3624381080, 310598401, 607225278, 1426881987,
   1925078388, 2162078206, 2614888103, 3248222580, 3835390401, 4022224774,
   264347078, 604807628, 770255983, 1249150122, 1555081692, 1996064986,
   2554220882, 2821834349, 2952996808, 3210313671, 3336571891, 3584528711,
   113926993, 338241895, 666307205, 773529912, 1294757372, 1396182291,
   1695183700, 1986661051, 2177026350, 2456956037, 2730485921, 2820302411,
   3259730800, 3345764771, 3516065817, 3600352804, 4094571909, 275423344,
   430227734, 506948616, 659060556, 883997877, 958139571, 1322822218,
   1537002063, 1747873779, 1955562222, 2024104815, 2227730452, 2361852424,
   2428436474, 2756734187, 3204031479, 3329325298]

/-- The SHA-256 initial hash value. -/
def sha256H0 : List Nat :=
  [1779033703, 3144134277, 1013904242, 2773480762, 1359893119, 2600822924,
   528734635, 1541459225]

/-- Big-endian packing of bytes into 32-bit words. -/
def bytesToWords : List Nat → List Nat
  | b1 :: b2 :: b3 :: b4 :: rest =>
    (((b1 * 256 + b2) * 256 + b3) * 256 + b4) :: bytesToWords rest
  | _ => []

/-- Big-endian byte rendering of a 32-bit word. -/
def wordBytes (w : Nat) : List Nat :=
  [w / 16777216 % 256, w / 65536 % 256, w / 256 % 256, w % 256]

/-- SHA-256 message padding to a multiple of 64 bytes. -/
def shaPad (msg : List Nat) : List Nat :=
  msg ++ 0x80 :: List.replicate ((119 - msg.length % 64) % 64) 0 ++
    wordBytes (msg.length * 8 / 4294967296) ++ wordBytes (w32 (msg.length * 8))

/-- Fuel-driven split of the word stream into 16-word blocks. -/
def toBlocks : Nat → List Nat → List (List Nat)
  | 0, _ => []
  | _ + 1, [] => []
  | fuel + 1, ws => ws.take 16 :: toBlocks fuel (ws.drop 16)

/-- Message-schedule extension by the requested number of words. -/
def extendW : List Nat → Nat → List Nat
  | ws, 0 => ws
  | ws, n + 1 =>
    extendW (ws ++ [w32 (smallSigma1 (ws.getD (ws.length - 2) 0) +
      ws.getD (ws.length - 7) 0 + smallSigma0 (ws.getD (ws.length - 15) 0) +
      ws.getD (ws.length - 16) 0)]) n

/-- One SHA-256 round on the eight-word working state. -/
def shaRound (st : List Nat) (kw : Nat × Nat) : List Nat :=
  match st with
  | [a, b, c, d, e, f, g, h] =>
    let t1 := w32 (h + bigSigma1 e + shaCh e f g + kw.1 + kw.2)
    let t2 := w32 (bigSigma0 a + shaMaj a b c)
    [w32 (t1 + t2), a, b, c, w32 (d + t1), e, f, g]
  | other => other

/-- Compression of one block into the running hash value. -/
def shaCompress (hv : List Nat) (block : List Nat) : List Nat :=
  let wS := extendW block 48
  let st := (sha256K.zip wS).foldl shaRound hv
  (hv.zip st).map (fun p => w32 (p.1 + p.2))

/-- The SHA-256 digest of a byte list, as 32 digest bytes. -/
def sha256Bytes (msg : List Nat) : List Nat :=
  let ws := bytesToWords (shaPad msg)
  ((toBlocks ws.length ws).foldl shaCompress sha256H0).flatMap wordBytes

/-- Lower-case hexadecimal digit, as `Number.prototype.toString(16)`
renders it. -/
def hexDigitCode (n : Nat) : Nat := if n < 10 then 48 + n else 87 + n

/-- Two-digit lower-case hex rendering of one byte, as the
`padStart(2, "0")` mapping in `generateHash` produces it. -/
def byteHex (b : Nat) : JStr := [hexDigitCode (b / 16), hexDigitCode (b % 16)]

/-- The hex digest string computed by `generateHash` for a given input
string: UTF-8 encode, SHA-256, byte-wise lower-case hex. -/
def sha256HexOf (s : JStr) : JStr :=
  (sha256Bytes (utf8Encode s)).flatMap byteHex

/-! ## JSON (`JSON.stringify` / `JSON.parse`)

`Json` models a JavaScript value as the application uses them: numbers are
the integers the app stores, strings are scalar-value sequences, object
fields keep insertion order (`JSON.stringify` prints them in that order,
and property access reads the last binding of a repeated key, as a
JavaScript object literal would).  The parser is fuel-driven recursive
descent; the fuel chosen in `jsonParse` covers every input, and the
round-trip theorem `jsonParse_print` is proved below.  Deviations from
`JSON.parse`, reachable only on inputs no claim touches: fractional and
exponent number forms are rejected rather than parsed as floats. -/

mutual
inductive Json where
  | nullV : Json
  | boolV (b : Bool) : Json
  | numV (n : Int) : Json
  | strV (s : JStr) : Json
  | arrV (xs : JsonList) : Json
  | objV (fs : JsonFields) : Json
  deriving DecidableEq

inductive JsonList where
  | nil : JsonList
  | cons (hd : Json) (tl : JsonList) : JsonList
  deriving DecidableEq

inductive JsonFields where
  | nil : JsonFields
  | cons (key : JStr) (val : Json) (tl : JsonFields) : JsonFields
  deriving DecidableEq
end

def isDigit (c : Nat) : Bool := 48 ≤ c && c ≤ 57

def natDigitsAux : Nat → Nat → JStr
  | 0, _ => []
  | _ + 1, 0 => []
  | fuel + 1, n => natDigitsAux fuel (n / 10) ++ [48 + n % 10]

def printNat (n : Nat) : JStr := if n = 0 then [48] else natDigitsAux (n + 1) n

def printInt : Int → JStr
  | .ofNat m => printNat m
  | .negSucc m => 45 :: printNat (m + 1)

def escapeChar (c : Nat) : JStr :=
  if c = 34 then [92, 34]
  else if c = 92 then [92, 92]
  else if c = 8 then [92, 98]
  else if c = 9 then [92, 116]
  else if c = 10 then [92, 110]
  else if c = 12 then [92, 102]
  else if c = 13 then [92, 114]
  else if c < 32 then [92, 117, 48, 48, hexDigitCode (c / 16), hexDigitCode (c % 16)]
  else [c]

def printStr (s : JStr) : JStr := 34 :: s.flatMap escapeChar ++ [34]

mutual
def printJson : Json → JStr
  | .nullV => [110, 117, 108, 108]
  | .boolV true => [116, 114, 117, 101]
  | .boolV false => [102, 97, 108, 115, 101]
  | .numV n => printInt n
  | .strV s => printStr s
  | .arrV xs => 91 :: (printElems xs ++ [93])
  | .objV fs => 123 :: (printFields fs ++ [125])

def printElems : JsonList → JStr
  | .nil => []
  | .cons x .nil => printJson x
  | .cons x (.cons y tl) => printJson x ++ 44 :: printElems (.cons y tl)

def printFields : JsonFields → JStr
  | .nil => []
  | .cons k v .nil => printStr k ++ 58 :: printJson v
  | .cons k v (.cons k2 v2 tl) =>
    printStr k ++ 58 :: printJson v ++ 44 :: printFields (.cons k2 v2 tl)
end

def printFieldsTail : JsonFields → JStr
  | .nil => []
  | .cons k2 v2 tl2 => 44 :: printFields (.cons k2 v2 tl2)

def digitsVal (ds : JStr) : Nat := ds.foldl (fun a c => a * 10 + (c - 48)) 0

def isJsonWs (c : Nat) : Bool := c == 32 || c == 9 || c == 10 || c == 13

def skipWs (s : JStr) : JStr := s.dropWhile isJsonWs

def hexVal (c : Nat) : Option Nat :=
  if 48 ≤ c ∧ c ≤ 57 then some (c - 48)
  else if 97 ≤ c ∧ c ≤ 102 then some (c - 87)
  else if 65 ≤ c ∧ c ≤ 70 then some (c - 55)
  else none

def parseNumber (s : JStr) : Option (Int × JStr) :=
  match s with
  | [] => none
  | c :: rest =>
    if c = 45 then
      let ds := rest.takeWhile isDigit
      if ds = [] then none
      else some (-(digitsVal ds : Int), rest.dropWhile isDigit)
    else
      let ds := (c :: rest).takeWhile isDigit
      if ds = [] then none
      else some ((digitsVal ds : Int), (c :: rest).dropWhile isDigit)

def parseStrBody : Nat → JStr → Option (JStr × JStr)
  | 0, _ => none
  | fuel + 1, s =>
    match s with
    | [] => none
    | c :: rest =>
      if c = 34 then some ([], rest)
      else if c = 92 then
        match rest with
        | [] => none
        | e :: rest2 =>
          if e = 34 then (parseStrBody fuel rest2).map (fun p => (34 :: p.1, p.2))
          else if e = 92 then (parseStrBody fuel rest2).map (fun p => (92 :: p.1, p.2))
          else if e = 47 then (parseStrBody fuel rest2).map (fun p => (47 :: p.1, p.2))
          else if e = 98 then (parseStrBody fuel rest2).map (fun p => (8 :: p.1, p.2))
          else if e = 116 then (parseStrBody fuel rest2).map (fun p => (9 :: p.1, p.2))
          else if e = 110 then (parseStrBody fuel rest2).map (fun p => (10 :: p.1, p.2))
          else if e = 102 then (parseStrBody fuel rest2).map (fun p => (12 :: p.1, p.2))
          else if e = 114 then (parseStrBody fuel rest2).map (fun p => (13 :: p.1, p.2))
          else if e = 117 then
            match rest2 with
            | h1 :: h2 :: h3 :: h4 :: rest3 =>
              match hexVal h1, hexVal h2, hexVal h3, hexVal h4 with
              | some v1, some v2, some v3, some v4 =>
                let code := ((v1 * 16 + v2) * 16 + v3) * 16 + v4
                if 0xD800 ≤ code ∧ code < 0xE000 then none
                else (parseStrBody fuel rest3).map (fun p => (code :: p.1, p.2))
              | _, _, _, _ => none
            | _ => none
          else none
      else if c < 32 then none
      else (parseStrBody fuel rest).map (fun p => (c :: p.1, p.2))

mutual
def parseVal : Nat → JStr → Option (Json × JStr)
  | 0, _ => none
  | fuel + 1, s =>
    match skipWs s with
    | [] => none
    | c :: rest =>
      if c = 110 then
        match rest with
        | 117 :: 108 :: 108 :: r => some (.nullV, r)
        | _ => none
      else if c = 116 then
        match rest with
        | 114 :: 117 :: 101 :: r => some (.boolV true, r)
        | _ => none
      else if c = 102 then
        match rest with
        | 97 :: 108 :: 115 :: 101 :: r => some (.boolV false, r)
        | _ => none
      else if c = 34 then
        (parseStrBody fuel rest).map (fun p => (Json.strV p.1, p.2))
      else if c = 91 then
        match skipWs rest with
        | [] => none
        | c2 :: r2 =>
          if c2 = 93 then some (.arrV .nil, r2)
          else (parseElems fuel (c2 :: r2)).map (fun p => (Json.arrV p.1, p.2))
      else if c = 123 then
        match skipWs rest with
        | [] => none
        | c2 :: r2 =>
          if c2 = 125 then some (.objV .nil, r2)
          else (parseFields fuel (c2 :: r2)).map (fun p => (Json.objV p.1, p.2))
      else
        (parseNumber (c :: rest)).map (fun p => (Json.numV p.1, p.2))

def parseElems : Nat → JStr → Option (JsonList × JStr)
  | 0, _ => none
  | fuel + 1, s =>
    match parseVal fuel s with
    | none => none
    | some (v, r1) =>
      match skipWs r1 with
      | [] => none
      | c :: r2 =>
        if c = 44 then (parseElems fuel r2).map (fun p => (JsonList.cons v p.1, p.2))
        else if c = 93 then some (.cons v .nil, r2)
        else none

def parseFields : Nat → JStr → Option (JsonFields × JStr)
  | 0, _ => none
  | fuel + 1, s =>
    match skipWs s with
    | [] => none
    | c :: r0 =>
      if c = 34 then
        match parseStrBody fuel r0 with
        | none => none
        | some (k, r1) =>
          match skipWs r1 with
          | [] => none
          | c2 :: r2 =>
            if c2 = 58 then
              match parseVal fuel r2 with
              | none => none
              | some (v, r3) =>
                match skipWs r3 with
                | [] => none
                | c3 :: r4 =>
                  if c3 = 44 then
                    (parseFields fuel r4).map (fun p => (JsonFields.cons k v p.1, p.2))
                  else if c3 = 125 then some (.cons k v .nil, r4)
                  else none
            else none
      else none
end

def jsonParse (s : JStr) : Option Json :=
  match parseVal (2 * s.length + 2) s with
  | some (v, rest) => if skipWs rest = [] then some v else none
  | none => none

def headNotDigit (rest : JStr) : Prop :=
  ∀ c r, rest = c :: r → isDigit c = false

/-! ## Data model (`RecordType`, `AttachmentType`, `BackupData`)

The structures mirror the exported types of `src/App.tsx` and the
`BackupData` / settings shape of `src/lib/storage/encryptedBackup.ts`;
`Option` fields model the optional (possibly `undefined`) properties,
which `JSON.stringify` omits.  `…ToJson` renders a value with the keys in
interface declaration order; `…OfJson` models the duck-typed property
reads a consumer performs on a parsed backup, and the `…OfJson_toJson`
theorems are the lossless round trip of the snapshot payload. -/

def jsonListOf : List Json → JsonList
  | [] => .nil
  | x :: xs => .cons x (jsonListOf xs)

def jsonListToList : JsonList → List Json
  | .nil => []
  | .cons x xs => x :: jsonListToList xs

def fieldsOf : List (JStr × Option Json) → JsonFields
  | [] => .nil
  | (k, some v) :: rest => .cons k v (fieldsOf rest)
  | (_, none) :: rest => fieldsOf rest

def getField : JsonFields → JStr → Option Json
  | .nil, _ => none
  | .cons k v tl, key =>
    match getField tl key with
    | some r => some r
    | none => if k = key then some v else none

def keyAbsent (l : List (JStr × Option Json)) (key : JStr) : Prop :=
  ∀ p ∈ l, p.1 = key → p.2 = none

def Json.asStr : Json → Option JStr
  | .strV s => some s
  | _ => none

def Json.asInt : Json → Option Int
  | .numV n => some n
  | _ => none

def Json.asList : Json → Option (List Json)
  | .arrV xs => some (jsonListToList xs)
  | _ => none

def Json.asFields : Json → Option JsonFields
  | .objV fs => some fs
  | _ => none

def reqField (fs : JsonFields) (k : JStr) (f : Json → Option α) : Option α :=
  (getField fs k).bind f

def optField (fs : JsonFields) (k : JStr) (f : Json → Option α) :
    Option (Option α) :=
  match getField fs k with
  | none => some none
  | some j => (f j).map some

structure AttachmentType where
  id : JStr
  name : JStr
  url : JStr
  type : JStr
  source : JStr
  fileHash : Option JStr
  ocrText : Option JStr
  deriving DecidableEq

structure EventLogEntry where
  timestamp : JStr
  action : JStr
  deriving DecidableEq

structure RecordType where
  id : JStr
  dateTime : JStr
  description : JStr
  tags : List JStr
  people : Option (List JStr)
  location : Option JStr
  severity : Option Int
  files : Option (List AttachmentType)
  createdAt : JStr
  editedAt : Option JStr
  contentHash : Option JStr
  eventLog : Option (List EventLogEntry)
  deriving DecidableEq

structure BackupSettings where
  pin : Option JStr
  decoyPin : Option JStr
  lockEnabled : Option JStr
  userName : Option JStr
  welcomeCompleted : Option JStr
  deriving DecidableEq

structure BackupData where
  version : JStr
  exportDate : JStr
  records : List RecordType
  settings : BackupSettings
  deriving DecidableEq

def strListJson (l : List JStr) : Json := .arrV (jsonListOf (l.map Json.strV))

def attachmentFields (a : AttachmentType) : List (JStr × Option Json) :=
  [
    (strCodes "id", some (.strV a.id)),
    (strCodes "name", some (.strV a.name)),
    (strCodes "url", some (.strV a.url)),
    (strCodes "type", some (.strV a.type)),
    (strCodes "source", some (.strV a.source)),
    (strCodes "fileHash", a.fileHash.map Json.strV),
    (strCodes "ocrText", a.ocrText.map Json.strV)]

def attachmentToJson (a : AttachmentType) : Json :=
  .objV (fieldsOf (attachmentFields a))

def eventFields (e : EventLogEntry) : List (JStr × Option Json) :=
  [(strCodes "timestamp", some (.strV e.timestamp)),
   (strCodes "action", some (.strV e.action))]

def eventToJson (e : EventLogEntry) : Json :=
  .objV (fieldsOf (eventFields e))

def recordFields (r : RecordType) : List (JStr × Option Json) :=
  [
    (strCodes "id", some (.strV r.id)),
    (strCodes "dateTime", some (.strV r.dateTime)),
    (strCodes "description", some (.strV r.description)),
    (strCodes "tags", some (strListJson r.tags)),
    (strCodes "people", r.people.map strListJson),
    (strCodes "location", r.location.map Json.strV),
    (strCodes "severity", r.severity.map Json.numV),
    (strCodes "files",
      r.files.map (fun l => Json.arrV (jsonListOf (l.map attachmentToJson)))),
    (strCodes "createdAt", some (.strV r.createdAt)),
    (strCodes "editedAt", r.editedAt.map Json.strV),
    (strCodes "contentHash", r.contentHash.map Json.strV),
    (strCodes "eventLog",
      r.eventLog.map (fun l => Json.arrV (jsonListOf (l.map eventToJson))))]

def recordToJson (r : RecordType) : Json :=
  .objV (fieldsOf (recordFields r))

def settingsFields (s : BackupSettings) : List (JStr × Option Json) :=
  [
    (strCodes "pin", s.pin.map Json.strV),
    (strCodes "decoyPin", s.decoyPin.map Json.strV),
    (strCodes "lockEnabled", s.lockEnabled.map Json.strV),
    (strCodes "userName", s.userName.map Json.strV),
    (strCodes "welcomeCompleted", s.welcomeCompleted.map Json.strV)]

def settingsToJson (s : BackupSettings) : Json :=
  .objV (fieldsOf (settingsFields s))

def backupFields (b : BackupData) : List (JStr × Option Json) :=
  [
    (strCodes "version", some (.strV b.version)),
    (strCodes "exportDate", some (.strV b.exportDate)),
    (strCodes "records", some (.arrV (jsonListOf (b.records.map recordToJson)))),
    (strCodes "settings", some (settingsToJson b.settings))]

def backupDataToJson (b : BackupData) : Json :=
  .objV (fieldsOf (backupFields b))

def strListOfJson (j : Json) : Option (List JStr) :=
  j.asList.bind (List.mapM Json.asStr)

def attachmentOfJson (j : Json) : Option AttachmentType := do
  let fs ← j.asFields
  let id ← reqField fs (strCodes "id") Json.asStr
  let name ← reqField fs (strCodes "name") Json.asStr
  let url ← reqField fs (strCodes "url") Json.asStr
  let type ← reqField fs (strCodes "type") Json.asStr
  let source ← reqField fs (strCodes "source") Json.asStr
  let fileHash ← optField fs (strCodes "fileHash") Json.asStr
  let ocrText ← optField fs (strCodes "ocrText") Json.asStr
  pure ⟨id, name, url, type, source, fileHash, ocrText⟩

def eventOfJson (j : Json) : Option EventLogEntry := do
  let fs ← j.asFields
  let timestamp ← reqField fs (strCodes "timestamp") Json.asStr
  let action ← reqField fs (strCodes "action") Json.asStr
  pure ⟨timestamp, action⟩

def recordOfJson (j : Json) : Option RecordType := do
  let fs ← j.asFields
  let id ← reqField fs (strCodes "id") Json.asStr
  let dateTime ← reqField fs (strCodes "dateTime") Json.asStr
  let description ← reqField fs (strCodes "description") Json.asStr
  let tags ← reqField fs (strCodes "tags") strListOfJson
  let people ← optField fs (strCodes "people") strListOfJson
  let location ← optField fs (strCodes "location") Json.asStr
  let severity ← optField fs (strCodes "severity") Json.asInt
  let files ← optField fs (strCodes "files")
    (fun x => x.asList.bind (List.mapM attachmentOfJson))
  let createdAt ← reqField fs (strCodes "createdAt") Json.asStr
  let editedAt ← optField fs (strCodes "editedAt") Json.asStr
  let contentHash ← optField fs (strCodes "contentHash") Json.asStr
  let eventLog ← optField fs (strCodes "eventLog")
    (fun x => x.asList.bind (List.mapM eventOfJson))
  pure ⟨id, dateTime, description, tags, people, location, severity, files,
    createdAt, editedAt, contentHash, eventLog⟩

def settingsOfJson (j : Json) : Option BackupSettings := do
  let fs ← j.asFields
  let pin ← optField fs (strCodes "pin") Json.asStr
  let decoyPin ← optField fs (strCodes "decoyPin") Json.asStr
  let lockEnabled ← optField fs (strCodes "lockEnabled") Json.asStr
  let userName ← optField fs (strCodes "userName") Json.asStr
  let welcomeCompleted ← optField fs (strCodes "welcomeCompleted") Json.asStr
  pure ⟨pin, decoyPin, lockEnabled, userName, welcomeCompleted⟩

def backupDataOfJson (j : Json) : Option BackupData := do
  let fs ← j.asFields
  let version ← reqField fs (strCodes "version") Json.asStr
  let exportDate ← reqField fs (strCodes "exportDate") Json.asStr
  let records ← reqField fs (strCodes "records")
    (fun x => x.asList.bind (List.mapM recordOfJson))
  let settings ← reqField fs (strCodes "settings") settingsOfJson
  pure ⟨version, exportDate, records, settings⟩

/-! ## Substring search (`String.prototype.includes`)

`restoreBackup` classifies a caught exception by
`error.message.includes('OperationError')`. -/

def startsWith : JStr → JStr → Bool
  | _, [] => true
  | [], _ :: _ => false
  | c :: s, p :: ps => c == p && startsWith s ps

def containsSubstr : JStr → JStr → Bool
  | [], pat => pat.isEmpty
  | c :: s, pat => startsWith (c :: s) pat || containsSubstr s pat

/-! ## Settings and records store (`indexedDBStorage.ts`)

`IndexedDBStorage` keeps two object stores: `records` (keyPath `id`) and
`settings` (keyPath `key`).  `StoreState` is their joint contents.  The
`saveRecords` bulk write (lines 68-93) opens one readwrite transaction,
issues `clear` and then one `add` per record, and resolves on
`oncomplete` / rejects on `onerror`; IndexedDB rolls back every request of
an aborted transaction, so the model commits all requests or none.  The
failure oracle `failAfter` simulates an environment error injected after
that many requests; an `add` whose key is already present raises a
`ConstraintError`, which also aborts the transaction. -/

structure StoreState where
  records : List RecordType
  settings : List (JStr × JStr)
  deriving DecidableEq

inductive StoreOp where
  | clear
  | add (record : RecordType)
  deriving DecidableEq

def applyOp (recs : List RecordType) : StoreOp → Option (List RecordType)
  | .clear => some []
  | .add r => if recs.any (fun x => x.id == r.id) then none else some (recs ++ [r])

def applyOps : List StoreOp → List RecordType → Option (List RecordType)
  | [], recs => some recs
  | op :: ops, recs =>
    match applyOp recs op with
    | none => none
    | some recs2 => applyOps ops recs2

def commitOps (ops : List StoreOp) (st : StoreState) : StoreState × Bool :=
  match applyOps ops st.records with
  | some newRecs => ({ st with records := newRecs }, true)
  | none => (st, false)

/-- `saveRecords` (indexedDBStorage.ts lines 68-93): the returned pair is the
store contents a subsequent read sees, and whether the returned promise
resolved (`oncomplete`) rather than rejected (`onerror`). -/
def saveRecords (records : List RecordType) (failAfter : Option Nat)
    (st : StoreState) : StoreState × Bool :=
  match failAfter with
  | some n =>
    if n < (StoreOp.clear :: records.map StoreOp.add).length then (st, false)
    else commitOps (StoreOp.clear :: records.map StoreOp.add) st
  | none => commitOps (StoreOp.clear :: records.map StoreOp.add) st

/-- `getRecords` (indexedDBStorage.ts lines 98-117): `getAll` on the records
store. -/
def getRecords (st : StoreState) : List RecordType := st.records

/-- `store.put { key, value }` on the settings store: replace the row with
that key, or append a fresh one. -/
def saveSettingAux : List (JStr × JStr) → JStr → JStr → List (JStr × JStr)
  | [], key, value => [(key, value)]
  | p :: rest, key, value =>
    if p.1 == key then (key, value) :: rest
    else p :: saveSettingAux rest key value

/-- `saveSetting` (indexedDBStorage.ts lines 214-231). -/
def saveSetting (st : StoreState) (key value : JStr) : StoreState :=
  { st with settings := saveSettingAux st.settings key value }

def getSettingAux : List (JStr × JStr) → JStr → Option JStr
  | [], _ => none
  | p :: rest, key => if p.1 == key then some p.2 else getSettingAux rest key

/-- `getSetting` (indexedDBStorage.ts lines 236-253): `store.get key`,
resolving `undefined` (here `none`) when no row has that key. -/
def getSetting (st : StoreState) (key : JStr) : Option JStr :=
  getSettingAux st.settings key

/-! ## Encrypted backup service (`encryptedBackup.ts`)

The Web Crypto primitives (PBKDF2-SHA-256 key derivation, AES-GCM
encrypt/decrypt) are the platform's, outside this repository, so they enter
the model as an abstract environment `CryptoEnv`; each theorem states the
properties of that pair it relies on as explicit hypotheses.  A failed
`decrypt` rejects with an exception whose message is `decryptFailMsg`
(browsers throw a `DOMException` named `OperationError` whose message text
varies by engine); `atob` on invalid base64 throws a message
`atobFailMsg` (an `InvalidCharacterError`); `JSON.parse` on non-JSON text
throws a message `parseFailMsg` (a `SyntaxError`). -/

structure CryptoEnv where
  deriveKey : JStr → List Nat → List Nat
  encrypt : List Nat → List Nat → List Nat → List Nat
  decrypt : List Nat → List Nat → List Nat → Option (List Nat)
  decryptFailMsg : JStr
  atobFailMsg : JStr
  parseFailMsg : JStr

structure EncryptedBackup where
  version : JStr
  salt : JStr
  iv : JStr
  data : JStr
  deriving DecidableEq

inductive BackupError where
  | passwordTooWeak
  | failedToCreate
  deriving DecidableEq

inductive RestoreError where
  | passwordRequired
  | incorrectPasswordOrCorrupted
  | failedToRestore
  deriving DecidableEq

def BACKUP_VERSION : JStr := strCodes "1.0"

/-- The `BackupData` object `createBackup` serializes: `BACKUP_VERSION`, the
export date from `new Date().toISOString()`, the caller's records and the
settings gathered from storage. -/
def backupJson (records : List RecordType) (settings : BackupSettings)
    (exportDate : JStr) : Json :=
  backupDataToJson ⟨BACKUP_VERSION, exportDate, records, settings⟩

/-- The plaintext handed to `encrypt`: the UTF-8 bytes of
`JSON.stringify(backupData)`. -/
def backupPlain (records : List RecordType) (settings : BackupSettings)
    (exportDate : JStr) : List Nat :=
  utf8Encode (printJson (backupJson records settings exportDate))

/-- `createBackup` (encryptedBackup.ts lines 92-147).  `salt` and `iv` are
the two fresh draws from `crypto.getRandomValues` (16 and 12 bytes).  An
empty password is already caught by the length test, as in the source's
`!password || password.length < 6`. -/
def createBackup (env : CryptoEnv) (salt iv : List Nat) (password : JStr)
    (records : List RecordType) (settings : BackupSettings)
    (exportDate : JStr) : Except BackupError EncryptedBackup :=
  if password.length < 6 then
    .error .passwordTooWeak
  else
    let dataBuffer := backupPlain records settings exportDate
    let key := env.deriveKey password salt
    let encryptedBuffer := env.encrypt key iv dataBuffer
    .ok ⟨BACKUP_VERSION, btoaBytes salt, btoaBytes iv, btoaBytes encryptedBuffer⟩

/-- The catch block of `restoreBackup` (lines 187-193): a message containing
`"OperationError"` becomes the incorrect-password error, anything else the
generic failure. -/
def classifyRestoreError (msg : JStr) : RestoreError :=
  if containsSubstr msg (strCodes "OperationError") then
    .incorrectPasswordOrCorrupted
  else .failedToRestore

/-- `restoreBackup` (encryptedBackup.ts lines 152-194), returning the value
`JSON.parse` produced: the source performs no structural validation of it (a
version mismatch only logs a console warning).  `TextDecoder.decode` never
throws in its default mode, so a decode of invalid UTF-8 surfaces, as in the
source, as the `SyntaxError` of the subsequent `JSON.parse`. -/
def restoreBackup (env : CryptoEnv) (password : JStr)
    (encryptedBackup : EncryptedBackup) : Except RestoreError Json :=
  if password.length = 0 then
    .error .passwordRequired
  else
    match atobBytes encryptedBackup.salt, atobBytes encryptedBackup.iv,
        atobBytes encryptedBackup.data with
    | some salt, some iv, some encryptedData =>
      let key := env.deriveKey password salt
      match env.decrypt key iv encryptedData with
      | none => .error (classifyRestoreError env.decryptFailMsg)
      | some decryptedBuffer =>
        match jsonParse (utf8Decode decryptedBuffer) with
        | none => .error (classifyRestoreError env.parseFailMsg)
        | some backupData => .ok backupData
    | _, _, _ => .error (classifyRestoreError env.atobFailMsg)

/-- One `if (backupData.settings.x) saveSetting(key, x)` step of
`applyBackup`: a setting is written only when present and truthy (for these
string values, non-empty). -/
def applySetting (st : StoreState) (key : JStr) (v : Option JStr) : StoreState :=
  match v with
  | some s => if s.isEmpty then st else saveSetting st key s
  | none => st

/-- `applyBackup` (encryptedBackup.ts lines 248-275): replace the records
store via `saveRecords`, then write each of the five settings guarded by its
truthiness; a storage failure raises `Failed to apply backup data`. -/
def applyBackup (backupData : BackupData) (failAfter : Option Nat)
    (st : StoreState) : Except Unit StoreState :=
  match saveRecords backupData.records failAfter st with
  | (_, false) => .error ()
  | (st1, true) =>
    let st2 := applySetting st1 (strCodes "recordKeeper_pin")
      backupData.settings.pin
    let st3 := applySetting st2 (strCodes "recordKeeper_decoyPin")
      backupData.settings.decoyPin
    let st4 := applySetting st3 (strCodes "recordKeeper_lockEnabled")
      backupData.settings.lockEnabled
    let st5 := applySetting st4 (strCodes "recordKeeper_userName")
      backupData.settings.userName
    let st6 := applySetting st5 (strCodes "recordKeeper_welcomeCompleted")
      backupData.settings.welcomeCompleted
    .ok st6

/-! ## Cloud sync merge (`cloudSync`, `sync` lines 282-299) -/

/-- The merge step of `sync`: start from the local records, collect the local
ids into a set, and append each cloud record whose id is not held locally. -/
def mergeRecords (localRecords cloudRecords : List RecordType) :
    List RecordType :=
  localRecords ++ cloudRecords.filter (fun cloudRecord =>
    !(localRecords.map (fun r => r.id)).contains cloudRecord.id)

/-! ## Record integrity hashing (`privacyScreen.ts`, `EncryptedStorageService`)

`EncryptedRecord` (lines 228-236) is the evidence-record row.
`generateHash` (lines 431-444) serializes its argument with
`JSON.stringify` and digests the UTF-8 bytes with SHA-256, rendered as
lowercase hex; without `crypto.subtle` it falls back to the first 64
characters of `btoa` of the serialization (modelled for latin1 input, the
only kind `btoa` accepts).  `JSON.stringify` prints keys in insertion order
and drops a key whose value is `undefined`, which `fieldsOf` mirrors. -/

structure EncryptedRecord where
  id : Option Int
  timestamp : Int
  type : JStr
  content : JStr
  tags : JStr
  attachments : Option JStr
  hash : JStr
  deriving DecidableEq

/-- The object `saveRecord` (line 334) hashes: the caller's record, which by
its type `Omit<EncryptedRecord, 'id' | 'hash'>` carries neither `id` nor
`hash`, keys in interface order. -/
def saveHashInput (r : EncryptedRecord) : Json :=
  .objV (fieldsOf [
    (strCodes "timestamp", some (.numV r.timestamp)),
    (strCodes "type", some (.strV r.type)),
    (strCodes "content", some (.strV r.content)),
    (strCodes "tags", some (.strV r.tags)),
    (strCodes "attachments", r.attachments.map Json.strV)])

/-- The object `verifyRecordIntegrity` (line 423) rebuilds:
`const { hash, ...recordWithoutHash } = record` keeps every field but
`hash` — `id` included whenever the stored row carries one. -/
def verifyHashInput (r : EncryptedRecord) : Json :=
  .objV (fieldsOf (
    (match r.id with
     | some i => [(strCodes "id", some (Json.numV i))]
     | none => []) ++ [
    (strCodes "timestamp", some (.numV r.timestamp)),
    (strCodes "type", some (.strV r.type)),
    (strCodes "content", some (.strV r.content)),
    (strCodes "tags", some (.strV r.tags)),
    (strCodes "attachments", r.attachments.map Json.strV)]))

/-- `generateHash` (privacyScreen.ts lines 431-444); `subtle` says whether
`crypto.subtle` is available. -/
def generateHash (subtle : Bool) (record : Json) : JStr :=
  let data := printJson record
  if subtle then sha256HexOf data
  else (btoaBytes data).take 64

/-- `verifyRecordIntegrity` (privacyScreen.ts lines 422-426). -/
def verifyRecordIntegrity (subtle : Bool) (record : EncryptedRecord) : Bool :=
  record.hash == generateHash subtle (verifyHashInput record)

/-- Modelled from the spec: the content hash the specification prescribes — a
digest over exactly the record's content fields, explicitly excluding id and
timestamps.  It exists only to compare the code's hash input against the
spec's wording. -/
def specContentHashInput (r : EncryptedRecord) : Json :=
  .objV (fieldsOf [
    (strCodes "type", some (.strV r.type)),
    (strCodes "content", some (.strV r.content)),
    (strCodes "tags", some (.strV r.tags)),
    (strCodes "attachments", r.attachments.map Json.strV)])

/-- Modelled from the spec: SHA-256 hex over the content fields alone. -/
def specContentHash (r : EncryptedRecord) : JStr :=
  sha256HexOf (printJson (specContentHashInput r))

/-! ## A concrete cryptographic environment

A toy instantiation of `CryptoEnv` used to exercise the theorems on
concrete inputs: the derived key is the password (reduced to bytes) with the
salt appended, encryption prepends key and nonce to the message, and
decryption checks and strips them.  It satisfies, on the concrete inputs the
witnesses use, the round-trip and wrong-key-rejection properties the
theorems assume of the real PBKDF2/AES-GCM pair. -/

def modelDeriveKey (password : JStr) (salt : List Nat) : List Nat :=
  password.map (· % 256) ++ salt

def modelEncrypt (key iv msg : List Nat) : List Nat :=
  key ++ iv ++ msg

def modelDecrypt (key iv ct : List Nat) : Option (List Nat) :=
  if ct.take (key.length + iv.length) = key ++ iv then
    some (ct.drop (key.length + iv.length))
  else none

def modelEnv : CryptoEnv where
  deriveKey := modelDeriveKey
  encrypt := modelEncrypt
  decrypt := modelDecrypt
  decryptFailMsg := strCodes "OperationError: the operation failed"
  atobFailMsg := strCodes "InvalidCharacterError: invalid base64"
  parseFailMsg := strCodes "SyntaxError: unexpected token"

/-- Flip one bit of the `i`-th code unit of a string. -/
def flipBit (s : JStr) (i bit : Nat) : JStr :=
  s.set i (Nat.xor (s.getD i 0) (2 ^ bit))

def w1password : JStr := strCodes "secret"

def w1settings : BackupSettings :=
  ⟨some (strCodes "1234"), none, some (strCodes "true"), none, none⟩

def w1date : JStr := strCodes "2024-01-01T00:00:00.000Z"

def w1record : RecordType :=
  ⟨strCodes "r1", strCodes "2024-01-01", strCodes "desc", [strCodes "tag"],
    none, none, none, none, strCodes "2024-01-01", none, none, none⟩

def w1salt : List Nat := List.replicate 16 7

def w1iv : List Nat := List.replicate 12 9

def c2password : JStr := strCodes "secret"

def c2wrong : JStr := strCodes "wrong1"

def c9salt2 : List Nat := List.replicate 16 8

def c9iv2 : List Nat := List.replicate 12 10

def c9e1 : EncryptedBackup :=
  match createBackup modelEnv w1salt w1iv w1password [] w1settings w1date with
  | .ok e => e
  | .error _ => ⟨[], [], [], []⟩

def c9e2 : EncryptedBackup :=
  match createBackup modelEnv c9salt2 c9iv2 w1password [] w1settings w1date with
  | .ok e => e
  | .error _ => ⟨[], [], [], []⟩

def c2settingsE : BackupSettings := ⟨none, none, none, none, none⟩

def c2e : EncryptedBackup :=
  match createBackup modelEnv w1salt w1iv c2password [] c2settingsE w1date with
  | .ok e => e
  | .error _ => ⟨[], [], [], []⟩

def c3rec1 : EncryptedRecord :=
  ⟨none, 1, strCodes "note", strCodes "x", strCodes "t", none, []⟩

def c3rec2 : EncryptedRecord := { c3rec1 with timestamp := 2 }

def c3rec3 : EncryptedRecord :=
  { c3rec1 with id := some 7, hash := strCodes "h" }

def c4base : EncryptedRecord :=
  ⟨some 1, 5, strCodes "note", strCodes "x", strCodes "t", none, []⟩

def c4rec : EncryptedRecord := { c4base with hash := specContentHash c4base }

def c7local : RecordType :=
  ⟨strCodes "A", strCodes "2024-01-01", strCodes "X", [], none, none, none,
    none, strCodes "2024-01-01", none, none, none⟩

def c7remote : RecordType := { c7local with description := strCodes "Y" }

def c7unique : RecordType := { c7local with id := strCodes "B" }

def c10bd : BackupData :=
  ⟨BACKUP_VERSION, w1date, [w1record],
    ⟨some (strCodes "1234"), none, some [], some (strCodes "amy"), none⟩⟩

def c10st : StoreState :=
  ⟨[], [(strCodes "recordKeeper_pin", strCodes "9999"),
        (strCodes "recordKeeper_lockEnabled", strCodes "true"),
        (strCodes "other", strCodes "keep")]⟩

def c10st' : StoreState :=
  match applyBackup c10bd none c10st with
  | .ok s => s
  | .error _ => ⟨[], []⟩

/-! # Theorems

Everything below is proof: first the correctness lemmas for the embedded
codecs and serializers, then the theorems settling the claims, each with
its witnesses and counterexamples. -/

/-- Every byte an encoded code point produces is a genuine byte. -/
theorem utf8EncodeChar_bytes (c : Nat) (hc : c < 0x110000) :
    IsBytes (utf8EncodeChar c) := by
  unfold utf8EncodeChar IsBytes
  split
  · intro b hb; simp at hb; omega
  · split
    · intro b hb; simp at hb
      rcases hb with h | h <;> omega
    · split
      · intro b hb; simp at hb
        rcases hb with h | h | h <;> omega
      · intro b hb; simp at hb
        rcases hb with h | h | h | h <;> omega

/-- Encoded strings consist of bytes. -/
theorem utf8Encode_bytes (s : JStr) (hs : ScalarStr s) : IsBytes (utf8Encode s) := by
  intro b hb
  unfold utf8Encode at hb
  simp only [List.mem_flatMap] at hb
  obtain ⟨c, hc, hbc⟩ := hb
  have := hs c hc
  exact utf8EncodeChar_bytes c (by unfold ScalarCode at this; omega) b hbc

/-- On a well-formed encoded scalar value the split step recovers the code
point and consumes exactly its continuation bytes. -/
theorem utf8Split_encodeChar (c : Nat) (hc : ScalarCode c) (rest : List Nat) :
    ∃ b tail,
      utf8EncodeChar c ++ rest = b :: (tail ++ rest) ∧
      utf8Split b (tail ++ rest) = (c, tail.length) := by
  unfold ScalarCode at hc
  by_cases h1 : c < 0x80
  · refine ⟨c, [], ?_, ?_⟩
    · simp [utf8EncodeChar, if_pos h1]
    · simp only [List.nil_append, utf8Split, if_pos h1, List.length_nil]
  · by_cases h2 : c < 0x800
    · refine ⟨0xC0 + c / 64, [0x80 + c % 64], ?_, ?_⟩
      · simp [utf8EncodeChar, if_neg h1, if_pos h2]
      · simp only [List.cons_append, List.nil_append, utf8Split, isCont]
        have hb : ¬ (0xC0 + c / 64 < 0x80) := by omega
        rw [if_neg hb, if_pos (by simp only [Bool.and_eq_true, decide_eq_true_eq]; omega)]
        rw [if_pos (by simp only [Bool.and_eq_true, decide_eq_true_eq]; omega)]
        simp only [List.length_cons, List.length_nil, Prod.mk.injEq]
        exact ⟨by omega, by trivial⟩
    · by_cases h3 : c < 0x10000
      · refine ⟨0xE0 + c / 4096, [0x80 + (c / 64) % 64, 0x80 + c % 64], ?_, ?_⟩
        · simp [utf8EncodeChar, if_neg h1, if_neg h2, if_pos h3]
        · simp only [List.cons_append, List.nil_append, utf8Split, isCont]
          have hb : ¬ (0xE0 + c / 4096 < 0x80) := by omega
          rw [if_neg hb,
            if_neg (by simp only [Bool.and_eq_true, decide_eq_true_eq]; omega),
            if_pos (by simp only [Bool.and_eq_true, decide_eq_true_eq]; omega)]
          have hguard : (isCont (0x80 + c / 64 % 64) && isCont (0x80 + c % 64) &&
              (0xE0 + c / 4096 != 0xE0 || 0xA0 ≤ 0x80 + c / 64 % 64) &&
              (0xE0 + c / 4096 != 0xED || 0x80 + c / 64 % 64 < 0xA0)) = true := by
            simp only [isCont, Bool.and_eq_true, Bool.or_eq_true, decide_eq_true_eq,
              bne_iff_ne, ne_eq]
            refine ⟨⟨⟨by omega, by omega⟩, ?_⟩, ?_⟩
            · by_cases he : c / 4096 = 0
              · right; omega
              · left; omega
            · by_cases he : c / 4096 = 13
              · right; omega
              · left; omega
          simp only [isCont] at hguard
          rw [if_pos hguard]
          simp only [List.length_cons, List.length_nil, Prod.mk.injEq]
          exact ⟨by omega, by trivial⟩
      · refine ⟨0xF0 + c / 262144,
          [0x80 + (c / 4096) % 64, 0x80 + (c / 64) % 64, 0x80 + c % 64], ?_, ?_⟩
        · simp [utf8EncodeChar, if_neg h1, if_neg h2, if_neg h3]
        · simp only [List.cons_append, List.nil_append, utf8Split, isCont]
          have hb : ¬ (0xF0 + c / 262144 < 0x80) := by omega
          rw [if_neg hb,
            if_neg (by simp only [Bool.and_eq_true, decide_eq_true_eq]; omega),
            if_neg (by simp only [Bool.and_eq_true, decide_eq_true_eq]; omega),
            if_pos (by simp only [Bool.and_eq_true, decide_eq_true_eq]; omega)]
          have hguard : (isCont (0x80 + c / 4096 % 64) && isCont (0x80 + c / 64 % 64) &&
              isCont (0x80 + c % 64) &&
              (0xF0 + c / 262144 != 0xF0 || 0x90 ≤ 0x80 + c / 4096 % 64) &&
              (0xF0 + c / 262144 != 0xF4 || 0x80 + c / 4096 % 64 < 0x90)) = true := by
            simp only [isCont, Bool.and_eq_true, Bool.or_eq_true, decide_eq_true_eq,
              bne_iff_ne, ne_eq]
            refine ⟨⟨⟨⟨by omega, by omega⟩, by omega⟩, ?_⟩, ?_⟩
            · by_cases he : c / 262144 = 0
              · right; omega
              · left; omega
            · by_cases he : c / 262144 = 4
              · right; omega
              · left; omega
          simp only [isCont] at hguard
          rw [if_pos hguard]
          simp only [List.length_cons, List.length_nil, Prod.mk.injEq]
          exact ⟨by omega, by trivial⟩

/-- Decoding one well-formed encoded scalar value at the head of a byte
stream recovers the code point and continues with the tail. -/
theorem utf8DecodeAux_encodeChar (c : Nat) (hc : ScalarCode c) (rest : List Nat)
    (fuel : Nat) :
    utf8DecodeAux (fuel + 1) (utf8EncodeChar c ++ rest) =
      c :: utf8DecodeAux fuel rest := by
  obtain ⟨b, tail, henc, hsplit⟩ := utf8Split_encodeChar c hc rest
  rw [henc, utf8DecodeAux, hsplit]
  simp

/-- Any fuel covering the character count decodes an encoded string back
to itself. -/
theorem utf8DecodeAux_encode (s : JStr) (hs : ScalarStr s) :
    ∀ fuel, s.length ≤ fuel → utf8DecodeAux fuel (utf8Encode s) = s := by
  induction s with
  | nil =>
    intro fuel _
    cases fuel <;> simp [utf8Encode, utf8DecodeAux]
  | cons c cs ih =>
    intro fuel hf
    have hc : ScalarCode c := hs c (List.mem_cons_self _ _)
    have hcs : ScalarStr cs := fun x hx => hs x (List.mem_cons_of_mem _ hx)
    obtain ⟨f, rfl⟩ : ∃ f, fuel = f + 1 := by
      cases fuel
      · simp at hf
      · exact ⟨_, rfl⟩
    have hsplit : utf8Encode (c :: cs) = utf8EncodeChar c ++ utf8Encode cs := by
      unfold utf8Encode
      simp [List.flatMap_cons]
    rw [hsplit, utf8DecodeAux_encodeChar c hc _ f, ih hcs f (by simp at hf; omega)]

/-- An encoded string is at least as long in bytes as in characters. -/
theorem utf8Encode_length_ge (s : JStr) : s.length ≤ (utf8Encode s).length := by
  induction s with
  | nil => simp [utf8Encode]
  | cons c cs ih =>
    have hne : utf8EncodeChar c ≠ [] := by
      unfold utf8EncodeChar
      split
      · simp
      · split
        · simp
        · split <;> simp
    have hpos : 1 ≤ (utf8EncodeChar c).length :=
      List.length_pos.mpr hne
    have hsplit : utf8Encode (c :: cs) = utf8EncodeChar c ++ utf8Encode cs := by
      unfold utf8Encode
      simp [List.flatMap_cons]
    rw [hsplit]
    simp only [List.length_append, List.length_cons]
    omega

/-- UTF-8 round trip: decoding an encoded scalar string recovers it. -/
theorem utf8Decode_encode (s : JStr) (hs : ScalarStr s) :
    utf8Decode (utf8Encode s) = s := by
  exact utf8DecodeAux_encode s hs _ (utf8Encode_length_ge s)

/-- The alphabet is disjoint from the padding character. -/
theorem b64Char_ne_pad (v : Nat) : b64Char v ≠ 61 := by
  unfold b64Char
  split
  · omega
  · split
    · omega
    · split
      · omega
      · split <;> omega

/-- The alphabet contains no ASCII whitespace. -/
theorem b64Char_not_ws (v : Nat) : isB64Ws (b64Char v) = false := by
  unfold b64Char isB64Ws
  split
  · simp only [Bool.or_eq_false_iff, beq_eq_false_iff_ne, ne_eq]; omega
  · split
    · simp only [Bool.or_eq_false_iff, beq_eq_false_iff_ne, ne_eq]; omega
    · split
      · simp only [Bool.or_eq_false_iff, beq_eq_false_iff_ne, ne_eq]; omega
      · split <;>
          (simp only [Bool.or_eq_false_iff, beq_eq_false_iff_ne, ne_eq]; omega)

/-- Alphabet lookup inverts alphabet rendering. -/
theorem b64Index_b64Char (v : Nat) (hv : v < 64) : b64Index (b64Char v) = some v := by
  revert hv
  revert v
  decide

/-- The character stream of `btoaBytes` is the rendered value stream plus
padding determined by the residue of the byte count. -/
theorem btoaBytes_eq_vals (bs : List Nat) :
    btoaBytes bs = (b64ValsOf bs).map b64Char ++
      List.replicate ((3 - bs.length % 3) % 3) 61 := by
  induction bs using btoaBytes.induct with
  | case1 => rfl
  | case2 b1 => rfl
  | case3 b1 b2 => rfl
  | case4 b1 b2 b3 rest ih =>
    have hmod : (3 - (rest.length + 1 + 1 + 1) % 3) % 3 = (3 - rest.length % 3) % 3 := by
      omega
    simp only [btoaBytes, b64ValsOf, List.map_cons, List.cons_append, ih,
      List.length_cons, hmod]

/-- The length of a base64 rendering is a multiple of four. -/
theorem btoaBytes_length_mod4 (bs : List Nat) : (btoaBytes bs).length % 4 = 0 := by
  induction bs using btoaBytes.induct with
  | case1 => rfl
  | case2 b1 => simp [btoaBytes]
  | case3 b1 b2 => simp [btoaBytes]
  | case4 b1 b2 b3 rest ih => simp only [btoaBytes, List.length_cons]; omega

/-- Bytes survive the 6-bit split-and-reassemble loop. -/
theorem bitsToBytes_vals (bs : List Nat) (h : IsBytes bs) :
    bitsToBytes (b64ValsOf bs) = bs := by
  induction bs using b64ValsOf.induct with
  | case1 => rfl
  | case2 b1 =>
    have hb1 := h b1 (by simp)
    simp only [b64ValsOf, bitsToBytes, List.cons.injEq, and_true]
    omega
  | case3 b1 b2 =>
    have hb1 := h b1 (by simp)
    have hb2 := h b2 (by simp)
    simp only [b64ValsOf, bitsToBytes, List.cons.injEq, and_true]
    constructor <;> omega
  | case4 b1 b2 b3 rest ih =>
    have hb1 := h b1 (by simp)
    have hb2 := h b2 (by simp)
    have hb3 := h b3 (by simp)
    have hrest : IsBytes rest := fun x hx => h x (by simp [hx])
    simp only [b64ValsOf, bitsToBytes, List.cons.injEq]
    exact ⟨by omega, by omega, by omega, ih hrest⟩

/-- The value stream is made of 6-bit values. -/
theorem b64ValsOf_lt (bs : List Nat) (h : IsBytes bs) :
    ∀ v ∈ b64ValsOf bs, v < 64 := by
  induction bs using b64ValsOf.induct with
  | case1 => intro v hv; simp [b64ValsOf] at hv
  | case2 b1 =>
    have hb1 := h b1 (by simp)
    intro v hv
    simp only [b64ValsOf, List.mem_cons, List.not_mem_nil, or_false] at hv
    rcases hv with h1 | h1 <;> omega
  | case3 b1 b2 =>
    have hb1 := h b1 (by simp)
    have hb2 := h b2 (by simp)
    intro v hv
    simp only [b64ValsOf, List.mem_cons, List.not_mem_nil, or_false] at hv
    rcases hv with h1 | h1 | h1 <;> omega
  | case4 b1 b2 b3 rest ih =>
    have hb1 := h b1 (by simp)
    have hb2 := h b2 (by simp)
    have hb3 := h b3 (by simp)
    have hrest : IsBytes rest := fun x hx => h x (by simp [hx])
    intro v hv
    simp only [b64ValsOf, List.mem_cons] at hv
    rcases hv with h1 | h1 | h1 | h1 | h1
    · omega
    · omega
    · omega
    · omega
    · exact ih hrest v h1

/-- Mapping the alphabet lookup over rendered values recovers them. -/
theorem mapM_b64Index_map (vs : List Nat) (h : ∀ v ∈ vs, v < 64) :
    (vs.map b64Char).mapM b64Index = some vs := by
  induction vs with
  | nil => rfl
  | cons v vs ih =>
    have hv := h v (by simp)
    have hvs : ∀ x ∈ vs, x < 64 := fun x hx => h x (by simp [hx])
    simp only [List.map_cons, List.mapM_cons, b64Index_b64Char v hv, ih hvs]
    rfl

/-- The rendered value stream never ends in the padding character. -/
theorem getLast_map_b64Char_ne (vs : List Nat) :
    (vs.map b64Char).getLast? ≠ some 61 := by
  rw [List.getLast?_map]
  intro hcon
  simp only [Option.map_eq_some'] at hcon
  obtain ⟨v, _, hv⟩ := hcon
  exact b64Char_ne_pad v hv

/-- Strings that do not end in the padding character are not stripped. -/
theorem stripPad_no_pad (s : JStr) (h : s.getLast? ≠ some 61) :
    stripPad s = s := by
  unfold stripPad
  split
  · split
    · next heq => exact absurd heq h
    · rfl
  · rfl

/-- One trailing padding character is stripped at a permissible length. -/
theorem stripPad_one (cs : JStr) (h : cs.getLast? ≠ some 61)
    (hlen : (cs.length + 1) % 4 = 0) :
    stripPad (cs ++ [61]) = cs := by
  unfold stripPad
  rw [if_pos (by simp; omega)]
  rw [List.getLast?_concat, List.dropLast_concat]
  cases hg : cs.getLast? with
  | none => simp [hg]
  | some c =>
    have hc : c ≠ 61 := fun hcc => h (by rw [hg, hcc])
    simp [hg, hc]

/-- Two trailing padding characters are stripped at a permissible length. -/
theorem stripPad_two (cs : JStr) (hlen : (cs.length + 2) % 4 = 0) :
    stripPad (cs ++ [61, 61]) = cs := by
  have h1 : cs ++ [61, 61] = (cs ++ [61]) ++ [61] := by simp
  rw [h1]
  unfold stripPad
  rw [if_pos (by simp; omega)]
  rw [List.getLast?_concat, List.dropLast_concat, List.getLast?_concat,
    List.dropLast_concat]

/-- Stripping the padding of a rendering leaves the rendered values. -/
theorem stripPad_btoa (bs : List Nat) :
    stripPad (btoaBytes bs) = (b64ValsOf bs).map b64Char := by
  have hB := btoaBytes_length_mod4 bs
  rw [btoaBytes_eq_vals] at hB ⊢
  simp only [List.length_append, List.length_replicate, List.length_map] at hB
  have hlast := getLast_map_b64Char_ne (b64ValsOf bs)
  have hk : (3 - bs.length % 3) % 3 < 3 := by omega
  rcases hc : (3 - bs.length % 3) % 3 with _ | _ | k
  · rw [hc] at hB
    simp only [hc, List.replicate, List.append_nil]
    exact stripPad_no_pad _ hlast
  · rw [hc] at hB
    simp only [hc, List.replicate]
    exact stripPad_one _ hlast (by simpa using hB)
  · have hk2 : k = 0 := by omega
    subst hk2
    rw [hc] at hB
    simp only [hc, List.replicate]
    exact stripPad_two _ (by simpa using hB)

/-- Key round trip: decoding an encoding recovers the bytes, exactly as
`base64ToArrayBuffer` recovers what `arrayBufferToBase64` produced. -/
theorem atobBytes_btoaBytes (bs : List Nat) (h : IsBytes bs) :
    atobBytes (btoaBytes bs) = some bs := by
  have hnows : (btoaBytes bs).filter (fun c => !isB64Ws c) = btoaBytes bs := by
    rw [List.filter_eq_self]
    intro c hc
    rw [btoaBytes_eq_vals] at hc
    rcases List.mem_append.mp hc with hin | hin
    · obtain ⟨v, _, hv⟩ := List.mem_map.mp hin
      simp [← hv, b64Char_not_ws]
    · have : c = 61 := List.eq_of_mem_replicate hin
      simp [this, isB64Ws]
  unfold atobBytes
  simp only [hnows, stripPad_btoa]
  have hvals := b64ValsOf_lt bs h
  have hB := btoaBytes_length_mod4 bs
  rw [btoaBytes_eq_vals] at hB
  simp only [List.length_append, List.length_replicate, List.length_map] at hB
  have hk : (3 - bs.length % 3) % 3 < 3 := by omega
  have hmod : ((b64ValsOf bs).map b64Char).length % 4 ≠ 1 := by
    simp only [List.length_map]
    omega
  rw [if_neg (by simpa using hmod)]
  rw [mapM_b64Index_map _ hvals]
  simp [bitsToBytes_vals bs h]

/-- Base64 rendering is injective on byte lists. -/
theorem btoaBytes_inj (bs1 bs2 : List Nat) (h1 : IsBytes bs1) (h2 : IsBytes bs2)
    (heq : btoaBytes bs1 = btoaBytes bs2) : bs1 = bs2 := by
  have e1 := atobBytes_btoaBytes bs1 h1
  have e2 := atobBytes_btoaBytes bs2 h2
  rw [heq, e2] at e1
  exact (Option.some.injEq _ _ ▸ e1).symm

/-- Sanity anchor: the FIPS 180-4 test vector for `"abc"`. -/
theorem sha256HexOf_abc :
    sha256HexOf (strCodes "abc") =
      strCodes "ba7816bf8f01cfea414140de5dae2223b00361a396177a9cb410ff61f20015ad" := by
  decide

/-- Sanity anchor: the digest of the empty string. -/
theorem sha256HexOf_empty :
    sha256HexOf [] =
      strCodes "e3b0c44298fc1c149afbf4c8996fb92427ae41e4649b934ca495991b7852b855" := by
  decide

theorem natDigitsAux_digits (f n : Nat) : ∀ c ∈ natDigitsAux f n, isDigit c = true := by
  induction f generalizing n with
  | zero => intro c hc; simp [natDigitsAux] at hc
  | succ f ih =>
    intro c hc
    match n with
    | 0 => simp [natDigitsAux] at hc
    | m + 1 =>
      simp only [natDigitsAux, List.mem_append, List.mem_singleton] at hc
      rcases hc with h | h
      · exact ih _ c h
      · subst h; simp [isDigit]; omega

theorem printNat_digits (n : Nat) : ∀ c ∈ printNat n, isDigit c = true := by
  unfold printNat
  split
  · intro c hc; simp at hc; subst hc; simp [isDigit]
  · exact natDigitsAux_digits _ _

theorem natDigitsAux_ne_nil (f n : Nat) (hn : n ≠ 0) (hf : n ≤ f) :
    natDigitsAux (f + 1) n ≠ [] := by
  match n, hn with
  | m + 1, _ => simp [natDigitsAux]

theorem printNat_ne_nil (n : Nat) : printNat n ≠ [] := by
  unfold printNat
  split
  · simp
  · next h => exact natDigitsAux_ne_nil n n h (Nat.le_refl n)

theorem digitsVal_append_one (ds : JStr) (d : Nat) :
    digitsVal (ds ++ [d]) = digitsVal ds * 10 + (d - 48) := by
  simp [digitsVal, List.foldl_append]

theorem natDigitsAux_zero (f : Nat) : natDigitsAux f 0 = [] := by
  cases f <;> simp [natDigitsAux]

theorem digitsVal_natDigitsAux (f n : Nat) (hf : n ≤ f) :
    n ≠ 0 → digitsVal (natDigitsAux f n) = n := by
  induction f generalizing n with
  | zero => intro hn; omega
  | succ f ih =>
    intro hn
    match n, hn with
    | m + 1, _ =>
      simp only [natDigitsAux]
      rw [digitsVal_append_one]
      by_cases h0 : (m + 1) / 10 = 0
      · rw [h0, natDigitsAux_zero]
        simp [digitsVal]
        omega
      · rw [ih _ (by omega) h0]
        omega

theorem digitsVal_printNat (n : Nat) : digitsVal (printNat n) = n := by
  unfold printNat
  split
  · next h => subst h; simp [digitsVal]
  · next h => exact digitsVal_natDigitsAux (n + 1) n (by omega) h

theorem takeWhile_all_append (p : Nat → Bool) (xs rest : JStr)
    (hall : ∀ x ∈ xs, p x = true) :
    (xs ++ rest).takeWhile p = xs ++ rest.takeWhile p ∧
    (xs ++ rest).dropWhile p = rest.dropWhile p := by
  induction xs with
  | nil => simp
  | cons x xs ih =>
    have hx := hall x (by simp)
    have ihh := ih (fun y hy => hall y (by simp [hy]))
    simp [List.takeWhile_cons, List.dropWhile_cons, hx, ihh.1, ihh.2]

theorem takeWhile_digit_stop (rest : JStr) (h : headNotDigit rest) :
    rest.takeWhile isDigit = [] ∧ rest.dropWhile isDigit = rest := by
  cases rest with
  | nil => simp
  | cons c r =>
    have := h c r rfl
    simp [List.takeWhile_cons, List.dropWhile_cons, this]

theorem parseNumber_print (n : Int) (rest : JStr) (h : headNotDigit rest) :
    parseNumber (printInt n ++ rest) = some (n, rest) := by
  match n with
  | .ofNat m =>
    have hd := printNat_digits m
    obtain ⟨c, t, hct⟩ : ∃ c t, printNat m = c :: t := by
      cases hp : printNat m with
      | nil => exact absurd hp (printNat_ne_nil m)
      | cons c t => exact ⟨c, t, rfl⟩
    have hcd : isDigit c = true := hd c (by rw [hct]; simp)
    show parseNumber (printNat m ++ rest) = _
    rw [hct]
    simp only [List.cons_append, parseNumber]
    rw [if_neg (by simp [isDigit] at hcd; omega)]
    have htw := takeWhile_all_append isDigit (c :: t) rest
      (by rw [← hct]; exact hd)
    have hstop := takeWhile_digit_stop rest h
    simp only [List.cons_append] at htw
    rw [htw.1, htw.2, hstop.1, hstop.2]
    simp only [List.append_nil]
    rw [if_neg (by simp)]
    rw [show (c :: t : JStr) = printNat m from hct.symm, digitsVal_printNat]
    rfl
  | .negSucc m =>
    show parseNumber (45 :: printNat (m + 1) ++ rest) = _
    simp only [List.cons_append, parseNumber, if_pos]
    have htw := takeWhile_all_append isDigit (printNat (m + 1)) rest
      (printNat_digits (m + 1))
    have hstop := takeWhile_digit_stop rest h
    rw [htw.1, htw.2, hstop.1, hstop.2]
    rw [if_neg (by simp [printNat_ne_nil (m + 1)])]
    simp only [List.append_nil, digitsVal_printNat, Option.some.injEq,
      Prod.mk.injEq, and_true]
    rw [Int.negSucc_eq]
    omega

theorem hexVal_hexDigitCode (n : Nat) (h : n < 16) :
    hexVal (hexDigitCode n) = some n := by
  revert h
  revert n
  decide

theorem parseStrBody_print (s : JStr) : ∀ fuel rest,
    (s.flatMap escapeChar).length + rest.length < fuel →
    parseStrBody fuel (s.flatMap escapeChar ++ 34 :: rest) = some (s, rest) := by
  induction s with
  | nil =>
    intro fuel rest hf
    obtain ⟨f, rfl⟩ : ∃ f, fuel = f + 1 := ⟨fuel - 1, by omega⟩
    simp [parseStrBody]
  | cons c s ih =>
    intro fuel rest hf
    have hsplit : (c :: s).flatMap escapeChar = escapeChar c ++ s.flatMap escapeChar := by
      simp [List.flatMap_cons]
    rw [hsplit] at hf ⊢
    simp only [List.length_append] at hf
    by_cases h34 : c = 34
    · subst h34
      obtain ⟨f, rfl⟩ : ∃ f, fuel = f + 1 := ⟨fuel - 1, by omega⟩
      have he : escapeChar 34 = [92, 34] := rfl
      rw [he] at hf ⊢
      simp only [List.cons_append, List.nil_append, parseStrBody, List.append_assoc]
      rw [ih f rest (by simp at hf ⊢; omega)]
      rfl
    · by_cases h92 : c = 92
      · subst h92
        obtain ⟨f, rfl⟩ : ∃ f, fuel = f + 1 := ⟨fuel - 1, by omega⟩
        have he : escapeChar 92 = [92, 92] := rfl
        rw [he] at hf ⊢
        simp only [List.cons_append, List.nil_append, parseStrBody, List.append_assoc]
        rw [ih f rest (by simp at hf ⊢; omega)]
        rfl
      · by_cases h8 : c = 8
        · subst h8
          obtain ⟨f, rfl⟩ : ∃ f, fuel = f + 1 := ⟨fuel - 1, by omega⟩
          have he : escapeChar 8 = [92, 98] := rfl
          rw [he] at hf ⊢
          simp only [List.cons_append, List.nil_append, parseStrBody, List.append_assoc]
          rw [ih f rest (by simp at hf ⊢; omega)]
          rfl
        · by_cases h9 : c = 9
          · subst h9
            obtain ⟨f, rfl⟩ : ∃ f, fuel = f + 1 := ⟨fuel - 1, by omega⟩
            have he : escapeChar 9 = [92, 116] := rfl
            rw [he] at hf ⊢
            simp only [List.cons_append, List.nil_append, parseStrBody,
              List.append_assoc]
            rw [ih f rest (by simp at hf ⊢; omega)]
            rfl
          · by_cases h10 : c = 10
            · subst h10
              obtain ⟨f, rfl⟩ : ∃ f, fuel = f + 1 := ⟨fuel - 1, by omega⟩
              have he : escapeChar 10 = [92, 110] := rfl
              rw [he] at hf ⊢
              simp only [List.cons_append, List.nil_append, parseStrBody,
                List.append_assoc]
              rw [ih f rest (by simp at hf ⊢; omega)]
              rfl
            · by_cases h12 : c = 12
              · subst h12
                obtain ⟨f, rfl⟩ : ∃ f, fuel = f + 1 := ⟨fuel - 1, by omega⟩
                have he : escapeChar 12 = [92, 102] := rfl
                rw [he] at hf ⊢
                simp only [List.cons_append, List.nil_append, parseStrBody,
                  List.append_assoc]
                rw [ih f rest (by simp at hf ⊢; omega)]
                rfl
              · by_cases h13 : c = 13
                · subst h13
                  obtain ⟨f, rfl⟩ : ∃ f, fuel = f + 1 := ⟨fuel - 1, by omega⟩
                  have he : escapeChar 13 = [92, 114] := rfl
                  rw [he] at hf ⊢
                  simp only [List.cons_append, List.nil_append, parseStrBody,
                    List.append_assoc]
                  rw [ih f rest (by simp at hf ⊢; omega)]
                  rfl
                · by_cases hctl : c < 32
                  · obtain ⟨f, rfl⟩ : ∃ f, fuel = f + 1 := ⟨fuel - 1, by omega⟩
                    have he : escapeChar c =
                        [92, 117, 48, 48, hexDigitCode (c / 16), hexDigitCode (c % 16)] := by
                      unfold escapeChar
                      rw [if_neg h34, if_neg h92, if_neg h8, if_neg h9, if_neg h10,
                        if_neg h12, if_neg h13, if_pos hctl]
                    rw [he] at hf ⊢
                    simp +decide only [List.cons_append, List.nil_append,
                      parseStrBody, List.append_assoc, ite_true, ite_false]
                    rw [hexVal_hexDigitCode (c / 16) (by omega),
                      hexVal_hexDigitCode (c % 16) (by omega)]
                    have h48 : hexVal 48 = some 0 := rfl
                    rw [h48, ih f rest (by simp at hf ⊢; omega)]
                    have hc : ((0 * 16 + 0) * 16 + c / 16) * 16 + c % 16 = c := by
                      omega
                    simp only [hc]
                    rw [if_neg (by omega : ¬ (55296 ≤ c ∧ c < 57344))]
                    rfl
                  · obtain ⟨f, rfl⟩ : ∃ f, fuel = f + 1 := ⟨fuel - 1, by omega⟩
                    have he : escapeChar c = [c] := by
                      unfold escapeChar
                      rw [if_neg h34, if_neg h92, if_neg h8, if_neg h9, if_neg h10,
                        if_neg h12, if_neg h13, if_neg hctl]
                    rw [he] at hf ⊢
                    simp only [List.cons_append, List.nil_append, parseStrBody]
                    rw [if_neg h34, if_neg h92, if_neg (by omega : ¬ c < 32)]
                    rw [ih f rest (by simp at hf ⊢; omega)]
                    rfl

theorem skipWs_cons (c : Nat) (r : JStr) (h : isJsonWs c = false) :
    skipWs (c :: r) = c :: r := by
  simp [skipWs, List.dropWhile_cons, h]

theorem headNotDigit_nil : headNotDigit [] := by
  intro c r h
  cases h

theorem headNotDigit_cons (c : Nat) (r : JStr) (h : isDigit c = false) :
    headNotDigit (c :: r) := by
  intro c2 r2 he
  cases he
  exact h

theorem printJson_head (x : Json) :
    ∃ c t, printJson x = c :: t ∧ isJsonWs c = false ∧ c ≠ 93 ∧ c ≠ 125 ∧
      c ≠ 44 ∧ c ≠ 58 := by
  match x with
  | .nullV => exact ⟨110, _, rfl, by decide, by decide, by decide, by decide, by decide⟩
  | .boolV true => exact ⟨116, _, rfl, by decide, by decide, by decide, by decide, by decide⟩
  | .boolV false => exact ⟨102, _, rfl, by decide, by decide, by decide, by decide, by decide⟩
  | .strV s => exact ⟨34, _, rfl, by decide, by decide, by decide, by decide, by decide⟩
  | .arrV xs => exact ⟨91, _, rfl, by decide, by decide, by decide, by decide, by decide⟩
  | .objV fs => exact ⟨123, _, rfl, by decide, by decide, by decide, by decide, by decide⟩
  | .numV (.ofNat m) =>
    obtain ⟨c, t, hct⟩ : ∃ c t, printNat m = c :: t := by
      cases hp : printNat m with
      | nil => exact absurd hp (printNat_ne_nil m)
      | cons c t => exact ⟨c, t, rfl⟩
    have hcd : isDigit c = true := printNat_digits m c (by rw [hct]; simp)
    have hc : 48 ≤ c ∧ c ≤ 57 := by simp [isDigit] at hcd; omega
    refine ⟨c, t, hct, ?_, by omega, by omega, by omega, by omega⟩
    simp [isJsonWs]
    omega
  | .numV (.negSucc m) =>
    exact ⟨45, _, rfl, by decide, by decide, by decide, by decide, by decide⟩

theorem printElems_cons_decomp (y : Json) (tl : JsonList) :
    ∃ u, printElems (.cons y tl) = printJson y ++ u ∧
      (tl = .nil → u = []) ∧
      (∀ z tl2, tl = .cons z tl2 → u = 44 :: printElems (.cons z tl2)) := by
  match tl with
  | .nil => exact ⟨[], by simp [printElems], fun _ => rfl, fun z tl2 h => by cases h⟩
  | .cons z tl2 =>
    refine ⟨44 :: printElems (.cons z tl2), by simp [printElems], ?_, ?_⟩
    · intro h
      cases h
    · intro z2 tl3 h
      rw [← h]

mutual

theorem parseVal_print (x : Json) : ∀ fuel rest,
    2 * (printJson x ++ rest).length < fuel → headNotDigit rest →
    parseVal fuel (printJson x ++ rest) = some (x, rest) := by
  match x with
  | .nullV =>
    intro fuel rest hf _
    obtain ⟨f, rfl⟩ : ∃ f, fuel = f + 1 := ⟨fuel - 1, by omega⟩
    show parseVal (f + 1) (110 :: 117 :: 108 :: 108 :: rest) = _
    simp only [parseVal]
    rw [skipWs_cons 110 _ (by decide)]
    simp +decide only [ite_true, ite_false]
  | .boolV true =>
    intro fuel rest hf _
    obtain ⟨f, rfl⟩ : ∃ f, fuel = f + 1 := ⟨fuel - 1, by omega⟩
    show parseVal (f + 1) (116 :: 114 :: 117 :: 101 :: rest) = _
    simp only [parseVal]
    rw [skipWs_cons 116 _ (by decide)]
    simp +decide only [ite_true, ite_false]
  | .boolV false =>
    intro fuel rest hf _
    obtain ⟨f, rfl⟩ : ∃ f, fuel = f + 1 := ⟨fuel - 1, by omega⟩
    show parseVal (f + 1) (102 :: 97 :: 108 :: 115 :: 101 :: rest) = _
    simp only [parseVal]
    rw [skipWs_cons 102 _ (by decide)]
    simp +decide only [ite_true, ite_false]
  | .strV s =>
    intro fuel rest hf _
    obtain ⟨f, rfl⟩ : ∃ f, fuel = f + 1 := ⟨fuel - 1, by omega⟩
    show parseVal (f + 1) (34 :: ((s.flatMap escapeChar ++ [34]) ++ rest)) = _
    simp only [parseVal]
    rw [skipWs_cons 34 _ (by decide)]
    simp +decide only [ite_true, ite_false]
    rw [List.append_assoc, List.cons_append, List.nil_append] at *
    rw [parseStrBody_print s f rest (by
      simp only [printJson, printStr, List.length_cons, List.length_append] at hf
      omega)]
    rfl
  | .numV n =>
    intro fuel rest hf hrest
    obtain ⟨f, rfl⟩ : ∃ f, fuel = f + 1 := ⟨fuel - 1, by omega⟩
    obtain ⟨c, t, hct, hnum⟩ : ∃ c t, printInt n = c :: t ∧
        (isDigit c = true ∨ c = 45) := by
      match n with
      | .ofNat m =>
        obtain ⟨c, t, hct⟩ : ∃ c t, printNat m = c :: t := by
          cases hp : printNat m with
          | nil => exact absurd hp (printNat_ne_nil m)
          | cons c t => exact ⟨c, t, rfl⟩
        exact ⟨c, t, hct, Or.inl (printNat_digits m c (by rw [hct]; simp))⟩
      | .negSucc m => exact ⟨45, _, rfl, Or.inr rfl⟩
    have hrange : (48 ≤ c ∧ c ≤ 57) ∨ c = 45 := by
      rcases hnum with h | h
      · left; simp [isDigit] at h; omega
      · right; exact h
    show parseVal (f + 1) (printInt n ++ rest) = _
    rw [hct]
    simp only [parseVal, List.cons_append]
    rw [skipWs_cons c _ (by simp [isJsonWs]; omega)]
    simp only []
    rw [if_neg (by omega : ¬ c = 110), if_neg (by omega : ¬ c = 116),
      if_neg (by omega : ¬ c = 102), if_neg (by omega : ¬ c = 34),
      if_neg (by omega : ¬ c = 91), if_neg (by omega : ¬ c = 123)]
    rw [← List.cons_append, ← hct, parseNumber_print n rest hrest]
    rfl
  | .arrV .nil =>
    intro fuel rest hf _
    obtain ⟨f, rfl⟩ : ∃ f, fuel = f + 1 := ⟨fuel - 1, by omega⟩
    show parseVal (f + 1) (91 :: (([] ++ [93]) ++ rest)) = _
    simp only [parseVal, List.nil_append, List.cons_append]
    rw [skipWs_cons 91 _ (by decide)]
    simp +decide only [ite_true, ite_false]
    rw [skipWs_cons 93 _ (by decide)]
    simp +decide only [ite_true, ite_false]
  | .arrV (.cons y tl) =>
    intro fuel rest hf _
    obtain ⟨f, rfl⟩ : ∃ f, fuel = f + 1 := ⟨fuel - 1, by omega⟩
    show parseVal (f + 1) (91 :: ((printElems (.cons y tl) ++ [93]) ++ rest)) = _
    simp only [parseVal, List.append_assoc, List.cons_append, List.nil_append]
    rw [skipWs_cons 91 _ (by decide)]
    simp +decide only [ite_true, ite_false]
    obtain ⟨c0, t0, hct0, hws0, h93, _, _, _⟩ := printJson_head y
    obtain ⟨u, hu, _, _⟩ := printElems_cons_decomp y tl
    have hpe : printElems (.cons y tl) ++ 93 :: rest =
        c0 :: (t0 ++ (u ++ 93 :: rest)) := by
      rw [hu, hct0]
      simp
    rw [hpe, skipWs_cons c0 _ hws0]
    simp only []
    rw [if_neg h93, ← hpe]
    have hlen : (printJson (Json.arrV (.cons y tl))).length =
        (printElems (.cons y tl)).length + 2 := by
      simp [printJson]
    rw [parseElems_print y tl f rest (by
      simp only [List.length_append, List.length_cons] at hf ⊢
      omega)]
    rfl
  | .objV .nil =>
    intro fuel rest hf _
    obtain ⟨f, rfl⟩ : ∃ f, fuel = f + 1 := ⟨fuel - 1, by omega⟩
    show parseVal (f + 1) (123 :: (([] ++ [125]) ++ rest)) = _
    simp only [parseVal, List.nil_append, List.cons_append]
    rw [skipWs_cons 123 _ (by decide)]
    simp +decide only [ite_true, ite_false]
    rw [skipWs_cons 125 _ (by decide)]
    simp +decide only [ite_true, ite_false]
  | .objV (.cons k v tl) =>
    intro fuel rest hf _
    obtain ⟨f, rfl⟩ : ∃ f, fuel = f + 1 := ⟨fuel - 1, by omega⟩
    show parseVal (f + 1) (123 :: ((printFields (.cons k v tl) ++ [125]) ++ rest)) = _
    simp only [parseVal, List.append_assoc, List.cons_append, List.nil_append]
    rw [skipWs_cons 123 _ (by decide)]
    simp +decide only [ite_true, ite_false]
    have hpf : printFields (.cons k v tl) ++ 125 :: rest =
        34 :: ((k.flatMap escapeChar ++ [34]) ++
          (58 :: printJson v ++ printFieldsTail tl) ++ 125 :: rest) := by
      cases tl <;> simp [printFields, printStr, printFieldsTail]
    rw [hpf, skipWs_cons 34 _ (by decide)]
    simp only []
    rw [if_neg (by decide : ¬ (34 : Nat) = 125), ← hpf]
    have hlen : (printJson (Json.objV (.cons k v tl))).length =
        (printFields (.cons k v tl)).length + 2 := by
      simp [printJson]
    rw [parseFields_print k v tl f rest (by
      simp only [List.length_append, List.length_cons] at hf ⊢
      omega)]
    rfl

termination_by sizeOf x
decreasing_by all_goals (try simp_wf; omega)

theorem parseElems_print (x : Json) (tl : JsonList) : ∀ fuel rest,
    2 * (printElems (.cons x tl) ++ 93 :: rest).length + 1 < fuel →
    parseElems fuel (printElems (.cons x tl) ++ 93 :: rest) =
      some (.cons x tl, rest) := by
  match tl with
  | .nil =>
    intro fuel rest hf
    obtain ⟨f, rfl⟩ : ∃ f, fuel = f + 1 := ⟨fuel - 1, by omega⟩
    show parseElems (f + 1) (printJson x ++ 93 :: rest) = _
    simp only [parseElems]
    rw [parseVal_print x f (93 :: rest) (by
        simp only [printElems] at hf
        omega)
      (headNotDigit_cons 93 _ (by decide))]
    simp only []
    rw [skipWs_cons 93 _ (by decide)]
    simp +decide only [ite_true, ite_false]
  | .cons y tl2 =>
    intro fuel rest hf
    obtain ⟨f, rfl⟩ : ∃ f, fuel = f + 1 := ⟨fuel - 1, by omega⟩
    have hshape : printElems (.cons x (.cons y tl2)) ++ 93 :: rest =
        printJson x ++ 44 :: (printElems (.cons y tl2) ++ 93 :: rest) := by
      simp [printElems]
    rw [hshape] at hf ⊢
    simp only [parseElems]
    rw [parseVal_print x f _ (by
        simp only [List.length_append, List.length_cons] at hf ⊢
        omega)
      (headNotDigit_cons 44 _ (by decide))]
    simp only []
    rw [skipWs_cons 44 _ (by decide)]
    simp +decide only [ite_true, ite_false]
    rw [parseElems_print y tl2 f rest (by
      simp only [List.length_append, List.length_cons] at hf ⊢
      omega)]
    rfl
termination_by sizeOf x + sizeOf tl + 1
decreasing_by all_goals (try simp_wf; omega)

theorem parseFields_print (k : JStr) (v : Json) (tl : JsonFields) : ∀ fuel rest,
    2 * (printFields (.cons k v tl) ++ 125 :: rest).length + 1 < fuel →
    parseFields fuel (printFields (.cons k v tl) ++ 125 :: rest) =
      some (.cons k v tl, rest) := by
  match tl with
  | .nil =>
    intro fuel rest hf
    obtain ⟨f, rfl⟩ : ∃ f, fuel = f + 1 := ⟨fuel - 1, by omega⟩
    have hshape : printFields (.cons k v .nil) ++ 125 :: rest =
        34 :: (k.flatMap escapeChar ++ 34 ::
          (58 :: (printJson v ++ 125 :: rest))) := by
      simp [printFields, printStr]
    rw [hshape] at hf ⊢
    simp only [parseFields]
    rw [skipWs_cons 34 _ (by decide)]
    simp +decide only [ite_true, ite_false]
    rw [parseStrBody_print k f _ (by
      simp only [List.length_append, List.length_cons] at hf ⊢
      omega)]
    simp only []
    rw [skipWs_cons 58 _ (by decide)]
    simp +decide only [ite_true, ite_false]
    rw [parseVal_print v f _ (by
        simp only [List.length_append, List.length_cons] at hf ⊢
        omega)
      (headNotDigit_cons 125 _ (by decide))]
    simp only []
    rw [skipWs_cons 125 _ (by decide)]
    simp +decide only [ite_true, ite_false]
  | .cons k2 v2 tl2 =>
    intro fuel rest hf
    obtain ⟨f, rfl⟩ : ∃ f, fuel = f + 1 := ⟨fuel - 1, by omega⟩
    have hshape : printFields (.cons k v (.cons k2 v2 tl2)) ++ 125 :: rest =
        34 :: (k.flatMap escapeChar ++ 34 ::
          (58 :: (printJson v ++ 44 ::
            (printFields (.cons k2 v2 tl2) ++ 125 :: rest)))) := by
      simp [printFields, printStr]
    rw [hshape] at hf ⊢
    simp only [parseFields]
    rw [skipWs_cons 34 _ (by decide)]
    simp +decide only [ite_true, ite_false]
    rw [parseStrBody_print k f _ (by
      simp only [List.length_append, List.length_cons] at hf ⊢
      omega)]
    simp only []
    rw [skipWs_cons 58 _ (by decide)]
    simp +decide only [ite_true, ite_false]
    rw [parseVal_print v f _ (by
        simp only [List.length_append, List.length_cons] at hf ⊢
        omega)
      (headNotDigit_cons 44 _ (by decide))]
    simp only []
    rw [skipWs_cons 44 _ (by decide)]
    simp +decide only [ite_true, ite_false]
    rw [parseFields_print k2 v2 tl2 f rest (by
      simp only [List.length_append, List.length_cons] at hf ⊢
      omega)]
    rfl
termination_by sizeOf v + sizeOf tl + 1
decreasing_by all_goals (try simp_wf; omega)

end

theorem jsonParse_print (x : Json) : jsonParse (printJson x) = some x := by
  unfold jsonParse
  have h := parseVal_print x (2 * (printJson x).length + 2) []
    (by simp only [List.append_nil]; omega) headNotDigit_nil
  rw [List.append_nil] at h
  rw [h]
  simp [skipWs]

theorem jsonListToList_of (l : List Json) : jsonListToList (jsonListOf l) = l := by
  induction l with
  | nil => rfl
  | cons x xs ih => simp [jsonListOf, jsonListToList, ih]

theorem getField_fieldsOf_absent (l : List (JStr × Option Json)) (key : JStr)
    (h : keyAbsent l key) : getField (fieldsOf l) key = none := by
  induction l with
  | nil => rfl
  | cons p rest ih =>
    have hrest : keyAbsent rest key := fun q hq => h q (by simp [hq])
    match p, h p (by simp) with
    | (k, some v), hp =>
      simp only [fieldsOf, getField, ih hrest]
      rw [if_neg (fun hk => by simpa using hp hk)]
    | (k, none), _ =>
      simp only [fieldsOf, ih hrest]

theorem getField_fieldsOf_found (l1 l2 : List (JStr × Option Json)) (key : JStr)
    (v : Json) (h1 : ∀ p ∈ l1, p.1 ≠ key) (h2 : keyAbsent l2 key) :
    getField (fieldsOf (l1 ++ (key, some v) :: l2)) key = some v := by
  induction l1 with
  | nil =>
    simp [List.nil_append, fieldsOf, getField,
      getField_fieldsOf_absent l2 key h2]
  | cons p rest ih =>
    have hrest : ∀ q ∈ rest, q.1 ≠ key := fun q hq => h1 q (by simp [hq])
    match p with
    | (k, some w) =>
      simp [List.cons_append, fieldsOf, getField, ih hrest]
    | (k, none) =>
      simp [List.cons_append, fieldsOf, ih hrest]

theorem mapM_map_of (f : α → Json) (g : Json → Option α)
    (h : ∀ x, g (f x) = some x) (l : List α) : (l.map f).mapM g = some l := by
  induction l with
  | nil => rfl
  | cons x xs ih =>
    rw [List.map_cons, List.mapM_cons, h x, ih]
    rfl

theorem strListOfJson_strListJson (l : List JStr) :
    strListOfJson (strListJson l) = some l := by
  unfold strListOfJson strListJson
  rw [show (Json.arrV (jsonListOf (l.map Json.strV))).asList =
    some (jsonListToList (jsonListOf (l.map Json.strV))) from rfl]
  rw [jsonListToList_of, Option.some_bind']
  exact mapM_map_of Json.strV Json.asStr (fun x => rfl) l

theorem eventOfJson_toJson (e : EventLogEntry) :
    eventOfJson (eventToJson e) = some e := by
  simp +decide [eventOfJson, eventToJson, Json.asFields, reqField, getField,
    fieldsOf, Json.asStr]

theorem fieldsOf_skip (k : JStr) (o : Option Json) (rest : List (JStr × Option Json))
    (key : JStr) (h : k ≠ key) :
    getField (fieldsOf ((k, o) :: rest)) key = getField (fieldsOf rest) key := by
  cases o with
  | none => rfl
  | some v =>
    simp only [fieldsOf, getField]
    cases hg : getField (fieldsOf rest) key with
    | none => simp [if_neg h]
    | some r => simp

theorem getField_fieldsOf_nil (key : JStr) : getField (fieldsOf []) key = none := rfl

theorem getField_fieldsOf_target (key : JStr) (o : Option Json)
    (rest : List (JStr × Option Json))
    (habs : getField (fieldsOf rest) key = none) :
    getField (fieldsOf ((key, o) :: rest)) key = o := by
  cases o with
  | none => simp [fieldsOf, habs]
  | some v => simp [fieldsOf, getField, habs]

theorem reqField_compute (fs : JsonFields) (key : JStr) (f : Json → Option β)
    (v : Json) (b : β) (hget : getField fs key = some v) (hfv : f v = some b) :
    reqField fs key f = some b := by
  simp [reqField, hget, hfv]

theorem optField_compute (fs : JsonFields) (key : JStr) (f : Json → Option β)
    (o : Option α) (g : α → Json) (h : α → β)
    (hget : getField fs key = o.map g) (hfg : ∀ x, f (g x) = some (h x)) :
    optField fs key f = some (o.map h) := by
  cases o with
  | none => simp [optField, hget]
  | some x => simp [optField, hget, hfg]

theorem optField_computeI (fs : JsonFields) (key : JStr) (f : Json → Option α)
    (o : Option α) (g : α → Json)
    (hget : getField fs key = o.map g) (hfg : ∀ x, f (g x) = some x) :
    optField fs key f = some o := by
  cases o with
  | none => simp [optField, hget]
  | some x => simp [optField, hget, hfg]

theorem attachmentOfJson_toJson (a : AttachmentType) :
    attachmentOfJson (attachmentToJson a) = some a := by
  have h1 : getField (fieldsOf (attachmentFields a)) (strCodes "id") =
      some (.strV a.id) := by
    unfold attachmentFields
    rw [getField_fieldsOf_target _ _ _ (by
      rw [fieldsOf_skip _ _ _ _ (by decide)]
      rw [fieldsOf_skip _ _ _ _ (by decide)]
      rw [fieldsOf_skip _ _ _ _ (by decide)]
      rw [fieldsOf_skip _ _ _ _ (by decide)]
      rw [fieldsOf_skip _ _ _ _ (by decide)]
      rw [fieldsOf_skip _ _ _ _ (by decide)]
      exact getField_fieldsOf_nil _)]
  have h2 : getField (fieldsOf (attachmentFields a)) (strCodes "name") =
      some (.strV a.name) := by
    unfold attachmentFields
    rw [fieldsOf_skip _ _ _ _ (by decide)]
    rw [getField_fieldsOf_target _ _ _ (by
      rw [fieldsOf_skip _ _ _ _ (by decide)]
      rw [fieldsOf_skip _ _ _ _ (by decide)]
      rw [fieldsOf_skip _ _ _ _ (by decide)]
      rw [fieldsOf_skip _ _ _ _ (by decide)]
      rw [fieldsOf_skip _ _ _ _ (by decide)]
      exact getField_fieldsOf_nil _)]
  have h3 : getField (fieldsOf (attachmentFields a)) (strCodes "url") =
      some (.strV a.url) := by
    unfold attachmentFields
    rw [fieldsOf_skip _ _ _ _ (by decide)]
    rw [fieldsOf_skip _ _ _ _ (by decide)]
    rw [getField_fieldsOf_target _ _ _ (by
      rw [fieldsOf_skip _ _ _ _ (by decide)]
      rw [fieldsOf_skip _ _ _ _ (by decide)]
      rw [fieldsOf_skip _ _ _ _ (by decide)]
      rw [fieldsOf_skip _ _ _ _ (by decide)]
      exact getField_fieldsOf_nil _)]
  have h4 : getField (fieldsOf (attachmentFields a)) (strCodes "type") =
      some (.strV a.type) := by
    unfold attachmentFields
    rw [fieldsOf_skip _ _ _ _ (by decide)]
    rw [fieldsOf_skip _ _ _ _ (by decide)]
    rw [fieldsOf_skip _ _ _ _ (by decide)]
    rw [getField_fieldsOf_target _ _ _ (by
      rw [fieldsOf_skip _ _ _ _ (by decide)]
      rw [fieldsOf_skip _ _ _ _ (by decide)]
      rw [fieldsOf_skip _ _ _ _ (by decide)]
      exact getField_fieldsOf_nil _)]
  have h5 : getField (fieldsOf (attachmentFields a)) (strCodes "source") =
      some (.strV a.source) := by
    unfold attachmentFields
    rw [fieldsOf_skip _ _ _ _ (by decide)]
    rw [fieldsOf_skip _ _ _ _ (by decide)]
    rw [fieldsOf_skip _ _ _ _ (by decide)]
    rw [fieldsOf_skip _ _ _ _ (by decide)]
    rw [getField_fieldsOf_target _ _ _ (by
      rw [fieldsOf_skip _ _ _ _ (by decide)]
      rw [fieldsOf_skip _ _ _ _ (by decide)]
      exact getField_fieldsOf_nil _)]
  have h6 : getField (fieldsOf (attachmentFields a)) (strCodes "fileHash") =
      a.fileHash.map Json.strV := by
    unfold attachmentFields
    rw [fieldsOf_skip _ _ _ _ (by decide)]
    rw [fieldsOf_skip _ _ _ _ (by decide)]
    rw [fieldsOf_skip _ _ _ _ (by decide)]
    rw [fieldsOf_skip _ _ _ _ (by decide)]
    rw [fieldsOf_skip _ _ _ _ (by decide)]
    rw [getField_fieldsOf_target _ _ _ (by
      rw [fieldsOf_skip _ _ _ _ (by decide)]
      exact getField_fieldsOf_nil _)]
  have h7 : getField (fieldsOf (attachmentFields a)) (strCodes "ocrText") =
      a.ocrText.map Json.strV := by
    unfold attachmentFields
    rw [fieldsOf_skip _ _ _ _ (by decide)]
    rw [fieldsOf_skip _ _ _ _ (by decide)]
    rw [fieldsOf_skip _ _ _ _ (by decide)]
    rw [fieldsOf_skip _ _ _ _ (by decide)]
    rw [fieldsOf_skip _ _ _ _ (by decide)]
    rw [fieldsOf_skip _ _ _ _ (by decide)]
    rw [getField_fieldsOf_target _ _ _ (by
      exact getField_fieldsOf_nil _)]
  have e1 := reqField_compute _ _ Json.asStr _ _ h1 rfl
  have e2 := reqField_compute _ _ Json.asStr _ _ h2 rfl
  have e3 := reqField_compute _ _ Json.asStr _ _ h3 rfl
  have e4 := reqField_compute _ _ Json.asStr _ _ h4 rfl
  have e5 := reqField_compute _ _ Json.asStr _ _ h5 rfl
  have e6 := optField_computeI _ _ Json.asStr _ _ h6 (fun x => rfl)
  have e7 := optField_computeI _ _ Json.asStr _ _ h7 (fun x => rfl)
  unfold attachmentOfJson attachmentToJson
  simp only [Json.asFields, e1, e2, e3, e4, e5, e6, e7, Option.bind_eq_bind, Option.some_bind]
  rfl

theorem attachmentListRoundtrip (l : List AttachmentType) :
    (Json.arrV (jsonListOf (l.map attachmentToJson))).asList.bind
      (List.mapM attachmentOfJson) = some l := by
  rw [show (Json.arrV (jsonListOf (l.map attachmentToJson))).asList =
    some (jsonListToList (jsonListOf (l.map attachmentToJson))) from rfl]
  rw [jsonListToList_of, Option.some_bind']
  exact mapM_map_of _ _ attachmentOfJson_toJson l

theorem eventListRoundtrip (l : List EventLogEntry) :
    (Json.arrV (jsonListOf (l.map eventToJson))).asList.bind
      (List.mapM eventOfJson) = some l := by
  rw [show (Json.arrV (jsonListOf (l.map eventToJson))).asList =
    some (jsonListToList (jsonListOf (l.map eventToJson))) from rfl]
  rw [jsonListToList_of, Option.some_bind']
  exact mapM_map_of _ _ eventOfJson_toJson l

theorem recordOfJson_toJson (r : RecordType) :
    recordOfJson (recordToJson r) = some r := by
  have h1 : getField (fieldsOf (recordFields r)) (strCodes "id") =
      some (.strV r.id) := by
    unfold recordFields
    rw [getField_fieldsOf_target _ _ _ (by
      rw [fieldsOf_skip _ _ _ _ (by decide)]
      rw [fieldsOf_skip _ _ _ _ (by decide)]
      rw [fieldsOf_skip _ _ _ _ (by decide)]
      rw [fieldsOf_skip _ _ _ _ (by decide)]
      rw [fieldsOf_skip _ _ _ _ (by decide)]
      rw [fieldsOf_skip _ _ _ _ (by decide)]
      rw [fieldsOf_skip _ _ _ _ (by decide)]
      rw [fieldsOf_skip _ _ _ _ (by decide)]
      rw [fieldsOf_skip _ _ _ _ (by decide)]
      rw [fieldsOf_skip _ _ _ _ (by decide)]
      rw [fieldsOf_skip _ _ _ _ (by decide)]
      exact getField_fieldsOf_nil _)]
  have h2 : getField (fieldsOf (recordFields r)) (strCodes "dateTime") =
      some (.strV r.dateTime) := by
    unfold recordFields
    rw [fieldsOf_skip _ _ _ _ (by decide)]
    rw [getField_fieldsOf_target _ _ _ (by
      rw [fieldsOf_skip _ _ _ _ (by decide)]
      rw [fieldsOf_skip _ _ _ _ (by decide)]
      rw [fieldsOf_skip _ _ _ _ (by decide)]
      rw [fieldsOf_skip _ _ _ _ (by decide)]
      rw [fieldsOf_skip _ _ _ _ (by decide)]
      rw [fieldsOf_skip _ _ _ _ (by decide)]
      rw [fieldsOf_skip _ _ _ _ (by decide)]
      rw [fieldsOf_skip _ _ _ _ (by decide)]
      rw [fieldsOf_skip _ _ _ _ (by decide)]
      rw [fieldsOf_skip _ _ _ _ (by decide)]
      exact getField_fieldsOf_nil _)]
  have h3 : getField (fieldsOf (recordFields r)) (strCodes "description") =
      some (.strV r.description) := by
    unfold recordFields
    rw [fieldsOf_skip _ _ _ _ (by decide)]
    rw [fieldsOf_skip _ _ _ _ (by decide)]
    rw [getField_fieldsOf_target _ _ _ (by
      rw [fieldsOf_skip _ _ _ _ (by decide)]
      rw [fieldsOf_skip _ _ _ _ (by decide)]
      rw [fieldsOf_skip _ _ _ _ (by decide)]
      rw [fieldsOf_skip _ _ _ _ (by decide)]
      rw [fieldsOf_skip _ _ _ _ (by decide)]
      rw [fieldsOf_skip _ _ _ _ (by decide)]
      rw [fieldsOf_skip _ _ _ _ (by decide)]
      rw [fieldsOf_skip _ _ _ _ (by decide)]
      rw [fieldsOf_skip _ _ _ _ (by decide)]
      exact getField_fieldsOf_nil _)]
  have h4 : getField (fieldsOf (recordFields r)) (strCodes "tags") =
      some (strListJson r.tags) := by
    unfold recordFields
    rw [fieldsOf_skip _ _ _ _ (by decide)]
    rw [fieldsOf_skip _ _ _ _ (by decide)]
    rw [fieldsOf_skip _ _ _ _ (by decide)]
    rw [getField_fieldsOf_target _ _ _ (by
      rw [fieldsOf_skip _ _ _ _ (by decide)]
      rw [fieldsOf_skip _ _ _ _ (by decide)]
      rw [fieldsOf_skip _ _ _ _ (by decide)]
      rw [fieldsOf_skip _ _ _ _ (by decide)]
      rw [fieldsOf_skip _ _ _ _ (by decide)]
      rw [fieldsOf_skip _ _ _ _ (by decide)]
      rw [fieldsOf_skip _ _ _ _ (by decide)]
      rw [fieldsOf_skip _ _ _ _ (by decide)]
      exact getField_fieldsOf_nil _)]
  have h5 : getField (fieldsOf (recordFields r)) (strCodes "people") =
      r.people.map strListJson := by
    unfold recordFields
    rw [fieldsOf_skip _ _ _ _ (by decide)]
    rw [fieldsOf_skip _ _ _ _ (by decide)]
    rw [fieldsOf_skip _ _ _ _ (by decide)]
    rw [fieldsOf_skip _ _ _ _ (by decide)]
    rw [getField_fieldsOf_target _ _ _ (by
      rw [fieldsOf_skip _ _ _ _ (by decide)]
      rw [fieldsOf_skip _ _ _ _ (by decide)]
      rw [fieldsOf_skip _ _ _ _ (by decide)]
      rw [fieldsOf_skip _ _ _ _ (by decide)]
      rw [fieldsOf_skip _ _ _ _ (by decide)]
      rw [fieldsOf_skip _ _ _ _ (by decide)]
      rw [fieldsOf_skip _ _ _ _ (by decide)]
      exact getField_fieldsOf_nil _)]
  have h6 : getField (fieldsOf (recordFields r)) (strCodes "location") =
      r.location.map Json.strV := by
    unfold recordFields
    rw [fieldsOf_skip _ _ _ _ (by decide)]
    rw [fieldsOf_skip _ _ _ _ (by decide)]
    rw [fieldsOf_skip _ _ _ _ (by decide)]
    rw [fieldsOf_skip _ _ _ _ (by decide)]
    rw [fieldsOf_skip _ _ _ _ (by decide)]
    rw [getField_fieldsOf_target _ _ _ (by
      rw [fieldsOf_skip _ _ _ _ (by decide)]
      rw [fieldsOf_skip _ _ _ _ (by decide)]
      rw [fieldsOf_skip _ _ _ _ (by decide)]
      rw [fieldsOf_skip _ _ _ _ (by decide)]
      rw [fieldsOf_skip _ _ _ _ (by decide)]
      rw [fieldsOf_skip _ _ _ _ (by decide)]
      exact getField_fieldsOf_nil _)]
  have h7 : getField (fieldsOf (recordFields r)) (strCodes "severity") =
      r.severity.map Json.numV := by
    unfold recordFields
    rw [fieldsOf_skip _ _ _ _ (by decide)]
    rw [fieldsOf_skip _ _ _ _ (by decide)]
    rw [fieldsOf_skip _ _ _ _ (by decide)]
    rw [fieldsOf_skip _ _ _ _ (by decide)]
    rw [fieldsOf_skip _ _ _ _ (by decide)]
    rw [fieldsOf_skip _ _ _ _ (by decide)]
    rw [getField_fieldsOf_target _ _ _ (by
      rw [fieldsOf_skip _ _ _ _ (by decide)]
      rw [fieldsOf_skip _ _ _ _ (by decide)]
      rw [fieldsOf_skip _ _ _ _ (by decide)]
      rw [fieldsOf_skip _ _ _ _ (by decide)]
      rw [fieldsOf_skip _ _ _ _ (by decide)]
      exact getField_fieldsOf_nil _)]
  have h8 : getField (fieldsOf (recordFields r)) (strCodes "files") =
      r.files.map (fun l => Json.arrV (jsonListOf (l.map attachmentToJson))) := by
    unfold recordFields
    rw [fieldsOf_skip _ _ _ _ (by decide)]
    rw [fieldsOf_skip _ _ _ _ (by decide)]
    rw [fieldsOf_skip _ _ _ _ (by decide)]
    rw [fieldsOf_skip _ _ _ _ (by decide)]
    rw [fieldsOf_skip _ _ _ _ (by decide)]
    rw [fieldsOf_skip _ _ _ _ (by decide)]
    rw [fieldsOf_skip _ _ _ _ (by decide)]
    rw [getField_fieldsOf_target _ _ _ (by
      rw [fieldsOf_skip _ _ _ _ (by decide)]
      rw [fieldsOf_skip _ _ _ _ (by decide)]
      rw [fieldsOf_skip _ _ _ _ (by decide)]
      rw [fieldsOf_skip _ _ _ _ (by decide)]
      exact getField_fieldsOf_nil _)]
  have h9 : getField (fieldsOf (recordFields r)) (strCodes "createdAt") =
      some (.strV r.createdAt) := by
    unfold recordFields
    rw [fieldsOf_skip _ _ _ _ (by decide)]
    rw [fieldsOf_skip _ _ _ _ (by decide)]
    rw [fieldsOf_skip _ _ _ _ (by decide)]
    rw [fieldsOf_skip _ _ _ _ (by decide)]
    rw [fieldsOf_skip _ _ _ _ (by decide)]
    rw [fieldsOf_skip _ _ _ _ (by decide)]
    rw [fieldsOf_skip _ _ _ _ (by decide)]
    rw [fieldsOf_skip _ _ _ _ (by decide)]
    rw [getField_fieldsOf_target _ _ _ (by
      rw [fieldsOf_skip _ _ _ _ (by decide)]
      rw [fieldsOf_skip _ _ _ _ (by decide)]
      rw [fieldsOf_skip _ _ _ _ (by decide)]
      exact getField_fieldsOf_nil _)]
  have h10 : getField (fieldsOf (recordFields r)) (strCodes "editedAt") =
      r.editedAt.map Json.strV := by
    unfold recordFields
    rw [fieldsOf_skip _ _ _ _ (by decide)]
    rw [fieldsOf_skip _ _ _ _ (by decide)]
    rw [fieldsOf_skip _ _ _ _ (by decide)]
    rw [fieldsOf_skip _ _ _ _ (by decide)]
    rw [fieldsOf_skip _ _ _ _ (by decide)]
    rw [fieldsOf_skip _ _ _ _ (by decide)]
    rw [fieldsOf_skip _ _ _ _ (by decide)]
    rw [fieldsOf_skip _ _ _ _ (by decide)]
    rw [fieldsOf_skip _ _ _ _ (by decide)]
    rw [getField_fieldsOf_target _ _ _ (by
      rw [fieldsOf_skip _ _ _ _ (by decide)]
      rw [fieldsOf_skip _ _ _ _ (by decide)]
      exact getField_fieldsOf_nil _)]
  have h11 : getField (fieldsOf (recordFields r)) (strCodes "contentHash") =
      r.contentHash.map Json.strV := by
    unfold recordFields
    rw [fieldsOf_skip _ _ _ _ (by decide)]
    rw [fieldsOf_skip _ _ _ _ (by decide)]
    rw [fieldsOf_skip _ _ _ _ (by decide)]
    rw [fieldsOf_skip _ _ _ _ (by decide)]
    rw [fieldsOf_skip _ _ _ _ (by decide)]
    rw [fieldsOf_skip _ _ _ _ (by decide)]
    rw [fieldsOf_skip _ _ _ _ (by decide)]
    rw [fieldsOf_skip _ _ _ _ (by decide)]
    rw [fieldsOf_skip _ _ _ _ (by decide)]
    rw [fieldsOf_skip _ _ _ _ (by decide)]
    rw [getField_fieldsOf_target _ _ _ (by
      rw [fieldsOf_skip _ _ _ _ (by decide)]
      exact getField_fieldsOf_nil _)]
  have h12 : getField (fieldsOf (recordFields r)) (strCodes "eventLog") =
      r.eventLog.map (fun l => Json.arrV (jsonListOf (l.map eventToJson))) := by
    unfold recordFields
    rw [fieldsOf_skip _ _ _ _ (by decide)]
    rw [fieldsOf_skip _ _ _ _ (by decide)]
    rw [fieldsOf_skip _ _ _ _ (by decide)]
    rw [fieldsOf_skip _ _ _ _ (by decide)]
    rw [fieldsOf_skip _ _ _ _ (by decide)]
    rw [fieldsOf_skip _ _ _ _ (by decide)]
    rw [fieldsOf_skip _ _ _ _ (by decide)]
    rw [fieldsOf_skip _ _ _ _ (by decide)]
    rw [fieldsOf_skip _ _ _ _ (by decide)]
    rw [fieldsOf_skip _ _ _ _ (by decide)]
    rw [fieldsOf_skip _ _ _ _ (by decide)]
    rw [getField_fieldsOf_target _ _ _ (by
      exact getField_fieldsOf_nil _)]
  have e1 := reqField_compute _ _ Json.asStr _ _ h1 rfl
  have e2 := reqField_compute _ _ Json.asStr _ _ h2 rfl
  have e3 := reqField_compute _ _ Json.asStr _ _ h3 rfl
  have e4 := reqField_compute _ _ strListOfJson _ _ h4 (strListOfJson_strListJson r.tags)
  have e5 := optField_computeI _ _ strListOfJson _ _ h5 strListOfJson_strListJson
  have e6 := optField_computeI _ _ Json.asStr _ _ h6 (fun x => rfl)
  have e7 := optField_computeI _ _ Json.asInt _ _ h7 (fun x => rfl)
  have e8 := optField_computeI _ _ (fun x => x.asList.bind (List.mapM attachmentOfJson)) _ _ h8 attachmentListRoundtrip
  have e9 := reqField_compute _ _ Json.asStr _ _ h9 rfl
  have e10 := optField_computeI _ _ Json.asStr _ _ h10 (fun x => rfl)
  have e11 := optField_computeI _ _ Json.asStr _ _ h11 (fun x => rfl)
  have e12 := optField_computeI _ _ (fun x => x.asList.bind (List.mapM eventOfJson)) _ _ h12 eventListRoundtrip
  unfold recordOfJson recordToJson
  simp only [Json.asFields, e1, e2, e3, e4, e5, e6, e7, e8, e9, e10, e11, e12, Option.bind_eq_bind, Option.some_bind]
  rfl

theorem recordListRoundtrip (l : List RecordType) :
    (Json.arrV (jsonListOf (l.map recordToJson))).asList.bind
      (List.mapM recordOfJson) = some l := by
  rw [show (Json.arrV (jsonListOf (l.map recordToJson))).asList =
    some (jsonListToList (jsonListOf (l.map recordToJson))) from rfl]
  rw [jsonListToList_of, Option.some_bind']
  exact mapM_map_of _ _ recordOfJson_toJson l

theorem settingsOfJson_toJson (s : BackupSettings) :
    settingsOfJson (settingsToJson s) = some s := by
  have h1 : getField (fieldsOf (settingsFields s)) (strCodes "pin") =
      s.pin.map Json.strV := by
    unfold settingsFields
    rw [getField_fieldsOf_target _ _ _ (by
      rw [fieldsOf_skip _ _ _ _ (by decide)]
      rw [fieldsOf_skip _ _ _ _ (by decide)]
      rw [fieldsOf_skip _ _ _ _ (by decide)]
      rw [fieldsOf_skip _ _ _ _ (by decide)]
      exact getField_fieldsOf_nil _)]
  have h2 : getField (fieldsOf (settingsFields s)) (strCodes "decoyPin") =
      s.decoyPin.map Json.strV := by
    unfold settingsFields
    rw [fieldsOf_skip _ _ _ _ (by decide)]
    rw [getField_fieldsOf_target _ _ _ (by
      rw [fieldsOf_skip _ _ _ _ (by decide)]
      rw [fieldsOf_skip _ _ _ _ (by decide)]
      rw [fieldsOf_skip _ _ _ _ (by decide)]
      exact getField_fieldsOf_nil _)]
  have h3 : getField (fieldsOf (settingsFields s)) (strCodes "lockEnabled") =
      s.lockEnabled.map Json.strV := by
    unfold settingsFields
    rw [fieldsOf_skip _ _ _ _ (by decide)]
    rw [fieldsOf_skip _ _ _ _ (by decide)]
    rw [getField_fieldsOf_target _ _ _ (by
      rw [fieldsOf_skip _ _ _ _ (by decide)]
      rw [fieldsOf_skip _ _ _ _ (by decide)]
      exact getField_fieldsOf_nil _)]
  have h4 : getField (fieldsOf (settingsFields s)) (strCodes "userName") =
      s.userName.map Json.strV := by
    unfold settingsFields
    rw [fieldsOf_skip _ _ _ _ (by decide)]
    rw [fieldsOf_skip _ _ _ _ (by decide)]
    rw [fieldsOf_skip _ _ _ _ (by decide)]
    rw [getField_fieldsOf_target _ _ _ (by
      rw [fieldsOf_skip _ _ _ _ (by decide)]
      exact getField_fieldsOf_nil _)]
  have h5 : getField (fieldsOf (settingsFields s)) (strCodes "welcomeCompleted") =
      s.welcomeCompleted.map Json.strV := by
    unfold settingsFields
    rw [fieldsOf_skip _ _ _ _ (by decide)]
    rw [fieldsOf_skip _ _ _ _ (by decide)]
    rw [fieldsOf_skip _ _ _ _ (by decide)]
    rw [fieldsOf_skip _ _ _ _ (by decide)]
    rw [getField_fieldsOf_target _ _ _ (by
      exact getField_fieldsOf_nil _)]
  have e1 := optField_computeI _ _ Json.asStr _ _ h1 (fun x => rfl)
  have e2 := optField_computeI _ _ Json.asStr _ _ h2 (fun x => rfl)
  have e3 := optField_computeI _ _ Json.asStr _ _ h3 (fun x => rfl)
  have e4 := optField_computeI _ _ Json.asStr _ _ h4 (fun x => rfl)
  have e5 := optField_computeI _ _ Json.asStr _ _ h5 (fun x => rfl)
  unfold settingsOfJson settingsToJson
  simp only [Json.asFields, e1, e2, e3, e4, e5, Option.bind_eq_bind, Option.some_bind]
  rfl

theorem backupDataOfJson_toJson (b : BackupData) :
    backupDataOfJson (backupDataToJson b) = some b := by
  have h1 : getField (fieldsOf (backupFields b)) (strCodes "version") =
      some (.strV b.version) := by
    unfold backupFields
    rw [getField_fieldsOf_target _ _ _ (by
      rw [fieldsOf_skip _ _ _ _ (by decide)]
      rw [fieldsOf_skip _ _ _ _ (by decide)]
      rw [fieldsOf_skip _ _ _ _ (by decide)]
      exact getField_fieldsOf_nil _)]
  have h2 : getField (fieldsOf (backupFields b)) (strCodes "exportDate") =
      some (.strV b.exportDate) := by
    unfold backupFields
    rw [fieldsOf_skip _ _ _ _ (by decide)]
    rw [getField_fieldsOf_target _ _ _ (by
      rw [fieldsOf_skip _ _ _ _ (by decide)]
      rw [fieldsOf_skip _ _ _ _ (by decide)]
      exact getField_fieldsOf_nil _)]
  have h3 : getField (fieldsOf (backupFields b)) (strCodes "records") =
      some (.arrV (jsonListOf (b.records.map recordToJson))) := by
    unfold backupFields
    rw [fieldsOf_skip _ _ _ _ (by decide)]
    rw [fieldsOf_skip _ _ _ _ (by decide)]
    rw [getField_fieldsOf_target _ _ _ (by
      rw [fieldsOf_skip _ _ _ _ (by decide)]
      exact getField_fieldsOf_nil _)]
  have h4 : getField (fieldsOf (backupFields b)) (strCodes "settings") =
      some (settingsToJson b.settings) := by
    unfold backupFields
    rw [fieldsOf_skip _ _ _ _ (by decide)]
    rw [fieldsOf_skip _ _ _ _ (by decide)]
    rw [fieldsOf_skip _ _ _ _ (by decide)]
    rw [getField_fieldsOf_target _ _ _ (by
      exact getField_fieldsOf_nil _)]
  have e1 := reqField_compute _ _ Json.asStr _ _ h1 rfl
  have e2 := reqField_compute _ _ Json.asStr _ _ h2 rfl
  have e3 := reqField_compute _ _ (fun x => x.asList.bind (List.mapM recordOfJson)) _ _ h3 (recordListRoundtrip b.records)
  have e4 := reqField_compute _ _ settingsOfJson _ _ h4 (settingsOfJson_toJson b.settings)
  unfold backupDataOfJson backupDataToJson
  simp only [Json.asFields, e1, e2, e3, e4, Option.bind_eq_bind, Option.some_bind]
  rfl

/-! ## The claims

Each claim of the specification is settled by one theorem below; a theorem
with hypotheses is exercised by a closed witness instantiating it on the
concrete model environment. -/

set_option maxRecDepth 16384

theorem applyOps_adds (l : List RecordType) : ∀ acc out,
    applyOps (l.map StoreOp.add) acc = some out → out = acc ++ l := by
  induction l with
  | nil =>
    intro acc out h
    simp [applyOps] at h
    simp [h.symm]
  | cons r tl ih =>
    intro acc out h
    simp only [List.map_cons, applyOps, applyOp] at h
    by_cases hc : acc.any (fun x => x.id == r.id)
    · rw [if_pos hc] at h
      exact absurd h (by simp)
    · rw [if_neg hc] at h
      simp only [] at h
      have := ih (acc ++ [r]) out h
      simpa using this

theorem commitOps_clear_adds (l : List RecordType) (st : StoreState) :
    (commitOps (StoreOp.clear :: l.map StoreOp.add) st).1.records = st.records ∨
    (commitOps (StoreOp.clear :: l.map StoreOp.add) st).1.records = l := by
  unfold commitOps
  cases hap : applyOps (StoreOp.clear :: l.map StoreOp.add) st.records with
  | none => left; rfl
  | some out =>
    right
    have h0 : applyOps (l.map StoreOp.add) [] = some out := by
      simpa [applyOps, applyOp] using hap
    have hout : out = l := by simpa using applyOps_adds l [] out h0
    simp [hout]

/-- C8: the bulk `saveRecords` write is all-or-nothing: whatever the prior
store contents, the input list and the point at which a failure strikes
mid-transaction, a subsequent `getRecords` sees either the complete old
record set or the complete new one, never a mixture. -/
theorem C8 (records : List RecordType) (failAfter : Option Nat)
    (st : StoreState) :
    getRecords (saveRecords records failAfter st).1 = getRecords st ∨
    getRecords (saveRecords records failAfter st).1 = records := by
  unfold saveRecords getRecords
  cases failAfter with
  | none => exact commitOps_clear_adds records st
  | some n =>
    simp only []
    by_cases h : n < (StoreOp.clear :: records.map StoreOp.add).length
    · rw [if_pos h]
      left; rfl
    · rw [if_neg h]
      exact commitOps_clear_adds records st

/-- C6: merging a snapshot with itself is a no-op: every record's id is
already held locally, so the remote pass appends nothing. -/
theorem C6 (S : List RecordType) : mergeRecords S S = S := by
  unfold mergeRecords
  have h : (S.filter fun cloudRecord =>
      !(S.map (fun r => r.id)).contains cloudRecord.id) = [] := by
    rw [List.filter_eq_nil_iff]
    intro a ha
    have hmem : a.id ∈ S.map (fun r => r.id) := List.mem_map_of_mem _ ha
    simp [List.contains, List.elem_iff, hmem]
  rw [h, List.append_nil]

/-- C7: local-wins-by-presence merge: a local record is always retained; a
remote record whose id is held locally but which differs from every local
record is discarded; and every remote record whose id is not held locally is
included in the merged result. -/
theorem C7 (localRecords cloudRecords : List RecordType) (rl rr : RecordType)
    (hl : rl ∈ localRecords) (hr : rr ∈ cloudRecords)
    (hid : rr.id = rl.id) (hnotin : rr ∉ localRecords) :
    rl ∈ mergeRecords localRecords cloudRecords ∧
    rr ∉ mergeRecords localRecords cloudRecords ∧
    ∀ r ∈ cloudRecords, r.id ∉ localRecords.map (fun x => x.id) →
      r ∈ mergeRecords localRecords cloudRecords := by
  refine ⟨List.mem_append_left _ hl, ?_, ?_⟩
  · intro hmem
    rcases List.mem_append.mp hmem with h | h
    · exact hnotin h
    · have hp := (List.mem_filter.mp h).2
      have hmem2 : rr.id ∈ localRecords.map (fun r => r.id) := by
        rw [hid]
        exact List.mem_map_of_mem _ hl
      simp [List.contains, List.elem_iff, hmem2] at hp
  · intro r hr2 hnid
    refine List.mem_append_right _ (List.mem_filter.mpr ⟨hr2, ?_⟩)
    simp [List.contains, List.elem_iff]
    intro x hx hxid
    exact hnid (hxid ▸ List.mem_map_of_mem (fun y => y.id) hx)

theorem getSettingAux_save_same (l : List (JStr × JStr)) (k v : JStr) :
    getSettingAux (saveSettingAux l k v) k = some v := by
  induction l with
  | nil => simp [saveSettingAux, getSettingAux]
  | cons p rest ih =>
    by_cases h : (p.1 == k) = true
    · simp [saveSettingAux, getSettingAux, h]
    · simp [saveSettingAux, getSettingAux, h, ih]

theorem getSettingAux_save_other (l : List (JStr × JStr)) (k v k' : JStr)
    (hne : k' ≠ k) :
    getSettingAux (saveSettingAux l k v) k' = getSettingAux l k' := by
  have hkk : (k == k') = false := by
    simp [beq_eq_false_iff_ne]
    exact fun hh => hne hh.symm
  induction l with
  | nil => simp [saveSettingAux, getSettingAux, hkk]
  | cons p rest ih =>
    by_cases h : (p.1 == k) = true
    · have hp : p.1 = k := by simpa [beq_iff_eq] using h
      simp [saveSettingAux, getSettingAux, h, hkk, hp]
    · simp [saveSettingAux, getSettingAux, h, ih]

theorem applySetting_records (st : StoreState) (key : JStr) (v : Option JStr) :
    (applySetting st key v).records = st.records := by
  cases v with
  | none => rfl
  | some s =>
    by_cases h : s.isEmpty
    all_goals simp [applySetting, saveSetting, h]

theorem getSetting_applySetting_other (st : StoreState) (key k : JStr)
    (v : Option JStr) (hne : k ≠ key) :
    getSetting (applySetting st key v) k = getSetting st k := by
  cases v with
  | none => rfl
  | some s =>
    by_cases h : s.isEmpty
    · simp [applySetting, h]
    · simp [applySetting, h, getSetting, saveSetting,
        getSettingAux_save_other _ _ _ _ hne]

theorem getSetting_applySetting_same (st : StoreState) (key : JStr)
    (v : Option JStr) :
    getSetting (applySetting st key v) key =
      (match v with
       | some s => if s.isEmpty then getSetting st key else some s
       | none => getSetting st key) := by
  cases v with
  | none => rfl
  | some s =>
    by_cases h : s.isEmpty
    · simp [applySetting, h]
    · simp [applySetting, h, getSetting, saveSetting, getSettingAux_save_same]

/-- C10: applying a restored backup replaces the record set with the
backup's records; each of the five settings keys is written only when the
backup holds a present, non-empty value for it, and otherwise keeps its prior
stored value; every other settings key is untouched. -/
theorem C10 (backupData : BackupData) (st st' : StoreState) (k : JStr)
    (happly : applyBackup backupData none st = .ok st')
    (h1 : k ≠ strCodes "recordKeeper_pin")
    (h2 : k ≠ strCodes "recordKeeper_decoyPin")
    (h3 : k ≠ strCodes "recordKeeper_lockEnabled")
    (h4 : k ≠ strCodes "recordKeeper_userName")
    (h5 : k ≠ strCodes "recordKeeper_welcomeCompleted") :
    st'.records = backupData.records ∧
    getSetting st' (strCodes "recordKeeper_pin") =
      (match backupData.settings.pin with
       | some v => if v.isEmpty then getSetting st (strCodes "recordKeeper_pin")
                   else some v
       | none => getSetting st (strCodes "recordKeeper_pin")) ∧
    getSetting st' (strCodes "recordKeeper_decoyPin") =
      (match backupData.settings.decoyPin with
       | some v => if v.isEmpty then
                     getSetting st (strCodes "recordKeeper_decoyPin")
                   else some v
       | none => getSetting st (strCodes "recordKeeper_decoyPin")) ∧
    getSetting st' (strCodes "recordKeeper_lockEnabled") =
      (match backupData.settings.lockEnabled with
       | some v => if v.isEmpty then
                     getSetting st (strCodes "recordKeeper_lockEnabled")
                   else some v
       | none => getSetting st (strCodes "recordKeeper_lockEnabled")) ∧
    getSetting st' (strCodes "recordKeeper_userName") =
      (match backupData.settings.userName with
       | some v => if v.isEmpty then
                     getSetting st (strCodes "recordKeeper_userName")
                   else some v
       | none => getSetting st (strCodes "recordKeeper_userName")) ∧
    getSetting st' (strCodes "recordKeeper_welcomeCompleted") =
      (match backupData.settings.welcomeCompleted with
       | some v => if v.isEmpty then
                     getSetting st (strCodes "recordKeeper_welcomeCompleted")
                   else some v
       | none => getSetting st (strCodes "recordKeeper_welcomeCompleted")) ∧
    getSetting st' k = getSetting st k := by
  unfold applyBackup saveRecords at happly
  simp only [] at happly
  revert happly
  cases hap : applyOps (StoreOp.clear :: backupData.records.map StoreOp.add)
      st.records with
  | none =>
    intro happly
    rw [show commitOps (StoreOp.clear :: backupData.records.map StoreOp.add) st
        = (st, false) from by unfold commitOps; rw [hap]] at happly
    exact absurd happly (by simp)
  | some out =>
    intro happly
    rw [show commitOps (StoreOp.clear :: backupData.records.map StoreOp.add) st
        = ({ st with records := out }, true) from by
      unfold commitOps; rw [hap]] at happly
    have hout : out = backupData.records := by
      have h0 : applyOps (backupData.records.map StoreOp.add) [] = some out := by
        simpa [applyOps, applyOp] using hap
      simpa using applyOps_adds backupData.records [] out h0
    simp only [Except.ok.injEq] at happly
    subst happly
    subst hout
    refine ⟨?_, ?_, ?_, ?_, ?_, ?_, ?_⟩
    · rw [applySetting_records, applySetting_records, applySetting_records,
        applySetting_records, applySetting_records]
    · rw [getSetting_applySetting_other _ _ _ _ (by decide),
        getSetting_applySetting_other _ _ _ _ (by decide),
        getSetting_applySetting_other _ _ _ _ (by decide),
        getSetting_applySetting_other _ _ _ _ (by decide),
        getSetting_applySetting_same]
      rfl
    · rw [getSetting_applySetting_other _ _ _ _ (by decide),
        getSetting_applySetting_other _ _ _ _ (by decide),
        getSetting_applySetting_other _ _ _ _ (by decide),
        getSetting_applySetting_same,
        getSetting_applySetting_other _ _ _ _ (by decide)]
      rfl
    · rw [getSetting_applySetting_other _ _ _ _ (by decide),
        getSetting_applySetting_other _ _ _ _ (by decide),
        getSetting_applySetting_same,
        getSetting_applySetting_other _ _ _ _ (by decide),
        getSetting_applySetting_other _ _ _ _ (by decide)]
      rfl
    · rw [getSetting_applySetting_other _ _ _ _ (by decide),
        getSetting_applySetting_same,
        getSetting_applySetting_other _ _ _ _ (by decide),
        getSetting_applySetting_other _ _ _ _ (by decide),
        getSetting_applySetting_other _ _ _ _ (by decide)]
      rfl
    · rw [getSetting_applySetting_same,
        getSetting_applySetting_other _ _ _ _ (by decide),
        getSetting_applySetting_other _ _ _ _ (by decide),
        getSetting_applySetting_other _ _ _ _ (by decide),
        getSetting_applySetting_other _ _ _ _ (by decide)]
      rfl
    · rw [getSetting_applySetting_other _ _ _ _ h5,
        getSetting_applySetting_other _ _ _ _ h4,
        getSetting_applySetting_other _ _ _ _ h3,
        getSetting_applySetting_other _ _ _ _ h2,
        getSetting_applySetting_other _ _ _ _ h1]
      rfl

/-- C5: for every password of length less than 6 (the empty password
included) and every snapshot, `createBackup` fails with the password-too-weak
error and produces no envelope. -/
theorem C5 (env : CryptoEnv) (salt iv : List Nat) (password : JStr)
    (records : List RecordType) (settings : BackupSettings) (exportDate : JStr)
    (h : password.length < 6) :
    createBackup env salt iv password records settings exportDate =
      .error .passwordTooWeak := by
  unfold createBackup
  rw [if_pos h]

theorem C5_witness :
    createBackup modelEnv [] [] (strCodes "abc") []
      ⟨none, none, none, none, none⟩ [] =
      Except.error BackupError.passwordTooWeak :=
  C5 modelEnv [] [] (strCodes "abc") [] ⟨none, none, none, none, none⟩ []
    (by decide)

/-- C1: round trip.  For every password of length at least 6 and every
snapshot (records plus settings), restoring the envelope `createBackup`
produced, with the same password, succeeds and yields a backup whose record
set and settings are field-for-field equal to the snapshot.  The AES-GCM/
PBKDF2 pair enters through the hypothesis that decrypting what was encrypted
under the same derived key and nonce returns the plaintext; the snapshot's
strings must be scalar-value sequences for the UTF-8 round trip. -/
theorem C1 (env : CryptoEnv) (salt iv : List Nat) (password : JStr)
    (records : List RecordType) (settings : BackupSettings) (exportDate : JStr)
    (h6 : 6 ≤ password.length)
    (hsalt : IsBytes salt) (hiv : IsBytes iv)
    (hct : IsBytes (env.encrypt (env.deriveKey password salt) iv
      (backupPlain records settings exportDate)))
    (hdec : env.decrypt (env.deriveKey password salt) iv
        (env.encrypt (env.deriveKey password salt) iv
          (backupPlain records settings exportDate)) =
      some (backupPlain records settings exportDate))
    (hscalar : ScalarStr (printJson (backupJson records settings exportDate))) :
    ∃ e, createBackup env salt iv password records settings exportDate =
        .ok e ∧
      restoreBackup env password e =
        .ok (backupJson records settings exportDate) ∧
      backupDataOfJson (backupJson records settings exportDate) =
        some ⟨BACKUP_VERSION, exportDate, records, settings⟩ := by
  have hlt : ¬ password.length < 6 := by omega
  refine ⟨⟨BACKUP_VERSION, btoaBytes salt, btoaBytes iv,
    btoaBytes (env.encrypt (env.deriveKey password salt) iv
      (backupPlain records settings exportDate))⟩, ?_, ?_, ?_⟩
  · unfold createBackup
    rw [if_neg hlt]
  · unfold restoreBackup
    rw [if_neg (by omega : ¬ password.length = 0)]
    rw [atobBytes_btoaBytes salt hsalt, atobBytes_btoaBytes iv hiv,
        atobBytes_btoaBytes _ hct]
    simp only []
    rw [hdec]
    simp only []
    unfold backupPlain
    rw [utf8Decode_encode _ hscalar, jsonParse_print]
  · exact backupDataOfJson_toJson _

theorem C1_witness :
    ∃ e, createBackup modelEnv w1salt w1iv w1password [w1record] w1settings
        w1date = .ok e ∧
      restoreBackup modelEnv w1password e =
        .ok (backupJson [w1record] w1settings w1date) ∧
      backupDataOfJson (backupJson [w1record] w1settings w1date) =
        some ⟨BACKUP_VERSION, w1date, [w1record], w1settings⟩ :=
  C1 modelEnv w1salt w1iv w1password [w1record] w1settings w1date
    (by decide) (by decide) (by decide) (by decide) (by decide) (by decide)

/-- C2 (amended): the wrong-password half of the claim.  Under the
hypotheses that AES-GCM rejects the ciphertext under the key derived from a
different password and that the rejection surfaces as an exception whose
message contains "OperationError" (the condition the catch block tests),
restoring a valid envelope with a password other than the one it was created
with fails with the incorrect-password error and returns no plaintext.  The
tamper-detection half of the original claim is refuted by
the counterexample: a single bit flip confined to the slack bits of the
final base64 quantum of `data` leaves the decoded ciphertext unchanged, and
restore succeeds. -/
theorem C2 (env : CryptoEnv) (salt iv : List Nat) (p q : JStr)
    (records : List RecordType) (settings : BackupSettings) (exportDate : JStr)
    (h6 : 6 ≤ p.length) (hq : q.length ≠ 0)
    (hsalt : IsBytes salt) (hiv : IsBytes iv)
    (hct : IsBytes (env.encrypt (env.deriveKey p salt) iv
      (backupPlain records settings exportDate)))
    (hrej : env.decrypt (env.deriveKey q salt) iv
        (env.encrypt (env.deriveKey p salt) iv
          (backupPlain records settings exportDate)) = none)
    (hmsg : containsSubstr env.decryptFailMsg (strCodes "OperationError") =
      true) :
    ∃ e, createBackup env salt iv p records settings exportDate = .ok e ∧
      restoreBackup env q e = .error .incorrectPasswordOrCorrupted := by
  have hlt : ¬ p.length < 6 := by omega
  refine ⟨⟨BACKUP_VERSION, btoaBytes salt, btoaBytes iv,
    btoaBytes (env.encrypt (env.deriveKey p salt) iv
      (backupPlain records settings exportDate))⟩, ?_, ?_⟩
  · unfold createBackup
    rw [if_neg hlt]
  · unfold restoreBackup
    rw [if_neg hq]
    rw [atobBytes_btoaBytes salt hsalt, atobBytes_btoaBytes iv hiv,
        atobBytes_btoaBytes _ hct]
    simp only []
    rw [hrej]
    simp [classifyRestoreError, hmsg]

theorem C2_witness :
    ∃ e, createBackup modelEnv w1salt w1iv c2password [] w1settings w1date =
        .ok e ∧
      restoreBackup modelEnv c2wrong e =
        .error .incorrectPasswordOrCorrupted :=
  C2 modelEnv w1salt w1iv c2password c2wrong [] w1settings w1date
    (by decide) (by decide) (by decide) (by decide) (by decide) (by decide)
    (by decide)

/-- C9: envelope freshness.  Two `createBackup` calls on the same password
and snapshot whose random draws differ — different salt bytes and different
nonce bytes, with the resulting ciphertexts differing as AES-GCM under
distinct keys and nonces does (stated as a hypothesis on the abstract
primitive) — produce envelopes with different `salt`, different `iv` and
different `data` fields, because base64 encoding is injective on byte
inputs. -/
theorem C9 (env : CryptoEnv) (salt1 iv1 salt2 iv2 : List Nat) (password : JStr)
    (records : List RecordType) (settings : BackupSettings) (exportDate : JStr)
    (h6 : 6 ≤ password.length)
    (hs1 : IsBytes salt1) (hs2 : IsBytes salt2)
    (hi1 : IsBytes iv1) (hi2 : IsBytes iv2)
    (hc1 : IsBytes (env.encrypt (env.deriveKey password salt1) iv1
      (backupPlain records settings exportDate)))
    (hc2 : IsBytes (env.encrypt (env.deriveKey password salt2) iv2
      (backupPlain records settings exportDate)))
    (hsalt : salt1 ≠ salt2) (hiv : iv1 ≠ iv2)
    (hct : env.encrypt (env.deriveKey password salt1) iv1
        (backupPlain records settings exportDate) ≠
      env.encrypt (env.deriveKey password salt2) iv2
        (backupPlain records settings exportDate))
    (e1 e2 : EncryptedBackup)
    (h1 : createBackup env salt1 iv1 password records settings exportDate =
      .ok e1)
    (h2 : createBackup env salt2 iv2 password records settings exportDate =
      .ok e2) :
    e1.salt ≠ e2.salt ∧ e1.iv ≠ e2.iv ∧ e1.data ≠ e2.data := by
  have hlt : ¬ password.length < 6 := by omega
  unfold createBackup at h1 h2
  rw [if_neg hlt] at h1
  rw [if_neg hlt] at h2
  simp only [Except.ok.injEq] at h1 h2
  subst h1
  subst h2
  refine ⟨fun he => hsalt (btoaBytes_inj _ _ hs1 hs2 he),
    fun he => hiv (btoaBytes_inj _ _ hi1 hi2 he),
    fun he => hct (btoaBytes_inj _ _ hc1 hc2 he)⟩

theorem C9_witness :
    c9e1.salt ≠ c9e2.salt ∧ c9e1.iv ≠ c9e2.iv ∧ c9e1.data ≠ c9e2.data :=
  C9 modelEnv w1salt w1iv c9salt2 c9iv2 w1password [] w1settings w1date
    (by decide) (by decide) (by decide) (by decide) (by decide) (by decide)
    (by decide) (by decide) (by decide) (by decide) c9e1 c9e2 rfl rfl

theorem C2_counterexample :
    ∃ e, createBackup modelEnv w1salt w1iv c2password [] c2settingsE w1date =
        Except.ok e ∧
      flipBit e.data 157 1 ≠ e.data ∧
      restoreBackup modelEnv c2password
          ⟨e.version, e.salt, e.iv, flipBit e.data 157 1⟩ =
        Except.ok (backupJson [] c2settingsE w1date) :=
  ⟨c2e, rfl, by decide, rfl⟩

theorem C3_counterexample :
    c3rec1.type = c3rec2.type ∧ c3rec1.content = c3rec2.content ∧
    c3rec1.tags = c3rec2.tags ∧ c3rec1.attachments = c3rec2.attachments ∧
    c3rec1.timestamp ≠ c3rec2.timestamp ∧
    generateHash true (saveHashInput c3rec1) ≠
      generateHash true (saveHashInput c3rec2) := by
  decide

/-- C3 (amended): `generateHash` serializes its argument record without
`id` and without the stored hash, but, contrary to the claim, the
serialization includes the `timestamp` field: the hash is invariant exactly
under agreement on timestamp, type, content, tags and attachments.  The
counterexample shows two records identical in every content field whose
hashes differ because only the timestamp differs. -/
theorem C3 (r1 r2 : EncryptedRecord) (subtle : Bool)
    (ht : r1.timestamp = r2.timestamp) (hty : r1.type = r2.type)
    (hc : r1.content = r2.content) (htg : r1.tags = r2.tags)
    (ha : r1.attachments = r2.attachments) :
    generateHash subtle (saveHashInput r1) =
      generateHash subtle (saveHashInput r2) := by
  unfold saveHashInput
  rw [ht, hty, hc, htg, ha]

theorem C3_witness :
    generateHash true (saveHashInput c3rec1) =
      generateHash true (saveHashInput c3rec3) :=
  C3 c3rec1 c3rec3 true rfl rfl rfl rfl rfl

/-- C4 (amended): `verifyRecordIntegrity` returns true iff the stored
`hash` equals, byte for byte, the SHA-256 hex digest of the record's
serialization with only the `hash` field removed — a serialization that,
contrary to the claim, still contains `id` (when present) and `timestamp`,
not the content fields alone; the counterexample exhibits a record whose
stored hash is exactly the spec's content-only digest yet fails
verification. -/
theorem C4 (r : EncryptedRecord) :
    verifyRecordIntegrity true r = true ↔
      r.hash = sha256HexOf (printJson (verifyHashInput r)) := by
  unfold verifyRecordIntegrity generateHash
  simp

theorem C4_counterexample :
    c4rec.hash = specContentHash c4rec ∧
    verifyRecordIntegrity true c4rec = false := by
  decide

theorem C7_witness :
    c7local ∈ mergeRecords [c7local] [c7remote, c7unique] ∧
    c7remote ∉ mergeRecords [c7local] [c7remote, c7unique] ∧
    ∀ r ∈ [c7remote, c7unique],
      r.id ∉ [c7local].map (fun x => x.id) →
        r ∈ mergeRecords [c7local] [c7remote, c7unique] :=
  C7 [c7local] [c7remote, c7unique] c7local c7remote (by decide) (by decide)
    (by decide) (by decide)

theorem C10_witness :
    c10st'.records = c10bd.records ∧
    getSetting c10st' (strCodes "recordKeeper_pin") = some (strCodes "1234") ∧
    getSetting c10st' (strCodes "recordKeeper_decoyPin") = none ∧
    getSetting c10st' (strCodes "recordKeeper_lockEnabled") =
      some (strCodes "true") ∧
    getSetting c10st' (strCodes "recordKeeper_userName") =
      some (strCodes "amy") ∧
    getSetting c10st' (strCodes "recordKeeper_welcomeCompleted") = none ∧
    getSetting c10st' (strCodes "other") =
      getSetting c10st (strCodes "other") :=
  C10 c10bd c10st c10st' (strCodes "other") rfl (by decide) (by decide)
    (by decide) (by decide) (by decide)

end CourtApp
